import Mathlib

/-!
Verification of the SciPaper-Hub pipeline and service layer.

Shallow embedding of the repository's Python sources:
  * `service/arxiv_client.py` — feed entry parsing and arXiv URL parsing;
  * `pipelines/normalize.py`  — deduplication by base identifier, schema
    validation, artifact write;
  * `pipelines/indexer.py`    — batch upsert with post-upsert probe;
  * `service/embed_vertex.py` — content-hash embedding cache;
  * `service/search_api.py`   — health endpoint and IP-hash A/B routing
    (MD5 implemented concretely);
  * `service/vector_search.py` — response assembly for `/search`.

Strings are modelled over their character lists; the ASCII fragment of
Python's `\w`/`\s`/`\d` character classes is used (every input the system
actually handles — arXiv identifiers, URLs, IP addresses — is ASCII).
Machine integers do not occur: Python integers are unbounded, matching Nat.
-/

set_option autoImplicit false

namespace SciPaperHub

/-! ## Generic Python-dict model

Python dicts preserve insertion order; setting an existing key updates the
value in place, setting a fresh key appends.  `pipelines/normalize.py` and
`service/arxiv_client.py` both rely on this behaviour. -/

def dictLookup {α : Type} (m : List (String × α)) (k : String) : Option α :=
  match m with
  | [] => none
  | (k1, v) :: rest => if k1 = k then some v else dictLookup rest k

def dictSet {α : Type} (m : List (String × α)) (k : String) (v : α) :
    List (String × α) :=
  match m with
  | [] => [(k, v)]
  | (k1, v1) :: rest =>
      if k1 = k then (k1, v) :: rest else (k1, v1) :: dictSet rest k v

def dictKeys {α : Type} (m : List (String × α)) : List String := m.map (·.1)

/-! ## Character classes (ASCII fragment of the Python regex classes) -/

/-- ASCII fragment of the regex class `\s` (as in `re.sub(r"\s+", " ", s)`
and `str.strip`). -/
def isWs (c : Char) : Bool :=
  c = ' ' || c = '\t' || c = '\n' || c = '\r' ||
    c = Char.ofNat 11 || c = Char.ofNat 12

/-- ASCII fragment of the regex class `[\w.\-]` used by `ARXIV_URL_PATTERN`
for the identifier group. -/
def isIdChar (c : Char) : Bool :=
  c.isAlphanum || c = '_' || c = '.' || c = '-'

def digitsToNat (cs : List Char) : Nat :=
  cs.foldl (fun n c => n * 10 + (c.toNat - 48)) 0

/-! ## `service/arxiv_client.py` — entry parsing -/

/-- Model of `s.strip()` followed by `re.sub(r"\s+", " ", s)`: used by
`_parse_summary` and for titles in `parse_entry`.  The Boolean argument
records whether the previous character was whitespace. -/
def squeezeWs : Bool → List Char → List Char
  | _, [] => []
  | prevWs, c :: rest =>
      if isWs c then
        if prevWs then squeezeWs true rest else ' ' :: squeezeWs true rest
      else c :: squeezeWs false rest

def stripChars (cs : List Char) : List Char :=
  ((cs.dropWhile isWs).reverse.dropWhile isWs).reverse

def collapseWs (s : String) : String :=
  String.mk (squeezeWs false (stripChars s.data))

/-- Model of `arxiv_id.rsplit("/", maxsplit=1)[-1]`: the suffix after the
last slash (the whole string when no slash occurs). -/
def lastSegment (s : String) : String :=
  String.mk ((s.data.reverse.takeWhile (fun c => c ≠ '/')).reverse)

/-- Model of `re.search(r"v(\d+)$", arxiv_id)` in `_parse_version`: the
leftmost position whose `v` is followed by a nonempty all-digit run that
reaches the end of the string. -/
def trailingVersion : List Char → Option Nat
  | [] => none
  | c :: rest =>
      if c = 'v' && rest ≠ [] && rest.all (·.isDigit) then
        some (digitsToNat rest)
      else trailingVersion rest

/-- `_parse_version`: version from a trailing `vN` suffix, default 1. -/
def parseVersion (arxivId : String) : Nat :=
  (trailingVersion arxivId.data).getD 1

/-- One `<link>` element of an Atom entry: its `rel`, `href` and `title`
attributes (each possibly absent), as read by `_extract_links`. -/
structure RawLink where
  rel : Option String
  href : Option String
  titleAttr : Option String
  deriving DecidableEq, Repr

/-- `_extract_links`: builds the link-kind → URL dict, skipping elements
without `rel` or `href`; `rel` ending in `/abs` or equal to `alternate`
fills `abs`, `rel` ending in `/pdf` or a `title="pdf"` attribute fills
`pdf`. -/
def extractLinks (ls : List RawLink) : List (String × String) :=
  ls.foldl
    (fun m l =>
      match l.rel, l.href with
      | some r, some h =>
          if r.endsWith "/abs" || r = "alternate" then dictSet m "abs" h
          else if r.endsWith "/pdf" || l.titleAttr = some "pdf" then
            dictSet m "pdf" h
          else m
      | _, _ => m)
    []

/-- One Atom `<entry>` element, reduced to the fields `parse_entry` reads:
`findtext` results are `Option String` (absent element → `none`),
category `term` and author `name` values in document order. -/
structure RawEntry where
  idText : Option String
  titleText : Option String
  summaryText : Option String
  publishedText : Option String
  updatedText : Option String
  categoryTerms : List (Option String)
  authorNames : List (Option String)
  links : List RawLink
  deriving DecidableEq, Repr

/-- `_extract_categories` / `_extract_authors`: keep the values that are
present and non-empty (Python truthiness of the attribute), in order. -/
def keptTexts (ts : List (Option String)) : List String :=
  ts.filterMap (fun t => match t with
    | some s => if s = "" then none else some s
    | none => none)

/-- The normalized dictionary `parse_entry` returns, as a structure. -/
structure FeedEntry where
  arxiv_id : String
  base_id : String
  version : Nat
  title : String
  abstract : String
  authors : List String
  categories : List String
  primary_category : String
  published_at : String
  updated_at : String
  links : List (String × String)
  deriving DecidableEq, Repr

/-- `parse_entry`: raises `ValueError("Entry missing id field")` when the
id text is absent or empty (Python truthiness of `findtext`), otherwise
takes the last `/`-segment as `arxiv_id`, the part before the first `v` as
`base_id` (`arxiv_id.split("v")[0]`), the trailing-`vN` version, and the
whitespace-collapsed title and summary. -/
def parse_entry (e : RawEntry) : Except String FeedEntry :=
  match e.idText with
  | none => .error "Entry missing id field"
  | some idT =>
      if idT = "" then .error "Entry missing id field"
      else
        let arxivId := lastSegment idT
        let baseId := String.mk (arxivId.data.takeWhile (fun c => c ≠ 'v'))
        let cats := keptTexts e.categoryTerms
        .ok
          { arxiv_id := arxivId
            base_id := baseId
            version := parseVersion arxivId
            title := collapseWs (e.titleText.getD "")
            abstract := collapseWs (e.summaryText.getD "")
            authors := keptTexts e.authorNames
            categories := cats
            primary_category := cats.headD ""
            published_at := e.publishedText.getD ""
            updated_at := e.updatedText.getD ""
            links := extractLinks e.links }

/-! ## `pipelines/normalize.py` -/

/-- One row of the canonical table assembled by `normalize` (lines 57–73). -/
structure CanonicalRow where
  arxiv_id : String
  base_id : String
  version : Nat
  title : String
  abstract : String
  authors : List String
  primary_category : String
  categories : List String
  published_at : String
  updated_at : String
  link_abs : String
  link_pdf : String
  ingest_snapshot : String
  deriving DecidableEq, Repr

/-- The body of the dedup loop (normalize.py lines 48–52): keep the new
entry when the base identifier is unseen or its version is strictly
greater than the stored one. -/
def dedupeStep (m : List (String × FeedEntry)) (e : FeedEntry) :
    List (String × FeedEntry) :=
  match dictLookup m e.base_id with
  | none => dictSet m e.base_id e
  | some ex => if ex.version < e.version then dictSet m e.base_id e else m

/-- The `records` dict after the dedup loop, entries in feed order. -/
def dedupeEntries (es : List FeedEntry) : List (String × FeedEntry) :=
  es.foldl dedupeStep []

/-- Row assembly (normalize.py lines 57–73): `links.get` defaults the abs
and pdf links from `record_value["arxiv_id"]` — the full identifier,
version suffix included. -/
def rowOf (ingest : String) (e : FeedEntry) : CanonicalRow :=
  { arxiv_id := e.arxiv_id
    base_id := e.base_id
    version := e.version
    title := e.title
    abstract := e.abstract
    authors := e.authors
    primary_category := e.primary_category
    categories := e.categories
    published_at := e.published_at
    updated_at := e.updated_at
    link_abs := (dictLookup e.links "abs").getD
      ("https://arxiv.org/abs/" ++ e.arxiv_id)
    link_pdf := (dictLookup e.links "pdf").getD
      ("https://arxiv.org/pdf/" ++ e.arxiv_id ++ ".pdf")
    ingest_snapshot := ingest }

/-- The pandera schema (normalize.py lines 77–91), parameterized by the
behaviour `tsOk` of `pd.to_datetime(s, errors="coerce").notna()` (pandas is
an external collaborator).  The `nullable=False` checks on `base_id` and
`abstract` cannot fire: every field is coerced through `str(...)` before
the DataFrame is built, and a Python `str` — the empty string included —
is never null.  The only check that can fail is the `published_at`
datetime check. -/
def schemaValidate (tsOk : String → Bool) (rows : List CanonicalRow) : Bool :=
  rows.all (fun r => tsOk r.published_at)

/-- `_iter_entries` (normalize.py lines 30–37) parses every entry of every
page with `parse_entry` and has no exception handler: the first malformed
entry aborts the whole run.  Eagerly sequencing the parses gives the same
observable outcome. -/
def parseAll : List RawEntry → Except String (List FeedEntry)
  | [] => .ok []
  | r :: rest =>
      match parse_entry r with
      | .error msg => .error msg
      | .ok e =>
          match parseAll rest with
          | .error msg => .error msg
          | .ok es => .ok (e :: es)

structure NormalizeResult where
  output_blob : String
  rows : List CanonicalRow
  deriving DecidableEq, Repr

/-- `normalize` (normalize.py lines 40–98) over the entries read from the
snapshot's pages: parse everything, dedupe by base identifier, assemble
rows, validate, and only then write.  `raws` is the concatenation of the
pages' entries in sorted blob order; `tsOk` models the pandas datetime
parser. -/
def normalizeRun (tsOk : String → Bool) (snapshot : String)
    (raws : List RawEntry) (outputBlob : Option String) :
    Except String NormalizeResult :=
  match parseAll raws with
  | .error msg => .error msg
  | .ok es =>
      let rows := (dedupeEntries es).map (fun kv => rowOf snapshot kv.2)
      if schemaValidate tsOk rows then
        .ok { output_blob :=
                outputBlob.getD ("normalized/" ++ snapshot ++ "/records.parquet")
              rows := rows }
      else .error "SchemaError: published_at must be parseable as datetime"

/-- The `upload_bytes` calls `normalize` issues: one write after successful
validation, none otherwise (the write at line 97 is reached only after
`schema.validate(df)` at line 93 returns). -/
def normalizeUploads (tsOk : String → Bool) (snapshot : String)
    (raws : List RawEntry) (outputBlob : Option String) :
    List (String × List CanonicalRow) :=
  match normalizeRun tsOk snapshot raws outputBlob with
  | .ok r => [(r.output_blob, r.rows)]
  | .error _ => []

/-! In `normalize` the manifest's `snapshot` field is what lands in
`ingest_snapshot`; the model passes the snapshot id for both. -/

/-! ## Dict lemmas -/

theorem dictLookup_dictSet_self {α : Type} (m : List (String × α)) (k : String)
    (v : α) : dictLookup (dictSet m k v) k = some v := by
  induction m with
  | nil => simp [dictSet, dictLookup]
  | cons p rest ih =>
      obtain ⟨k1, v1⟩ := p
      by_cases h : k1 = k
      · simp [dictSet, dictLookup, h]
      · simp [dictSet, dictLookup, h, ih]

theorem dictLookup_dictSet_ne {α : Type} (m : List (String × α))
    (k k1 : String) (v : α) (hne : k1 ≠ k) :
    dictLookup (dictSet m k v) k1 = dictLookup m k1 := by
  induction m with
  | nil =>
      have hnk : ¬ k = k1 := fun h => hne h.symm
      simp [dictSet, dictLookup, hnk]
  | cons p rest ih =>
      obtain ⟨k2, v2⟩ := p
      by_cases h : k2 = k
      · subst h
        have hnk : ¬ k2 = k1 := fun h2 => hne h2.symm
        simp [dictSet, dictLookup, hnk]
      · by_cases h1 : k2 = k1
        · subst h1
          simp [dictSet, dictLookup, h, hne]
        · simp [dictSet, dictLookup, h, h1, ih]

theorem dictKeys_dictSet {α : Type} (m : List (String × α)) (k : String)
    (v : α) :
    dictKeys (dictSet m k v) =
      if k ∈ dictKeys m then dictKeys m else dictKeys m ++ [k] := by
  induction m with
  | nil => simp [dictSet, dictKeys]
  | cons p rest ih =>
      obtain ⟨k1, v1⟩ := p
      by_cases h : k1 = k
      · subst h
        simp [dictSet, dictKeys]
      · have hnk : k ≠ k1 := fun h2 => h h2.symm
        have hstep : dictKeys (dictSet ((k1, v1) :: rest) k v)
            = k1 :: dictKeys (dictSet rest k v) := by
          simp [dictSet, dictKeys, h]
        rw [hstep, ih]
        by_cases hmem : k ∈ dictKeys rest
        · rw [if_pos hmem, if_pos (show k ∈ dictKeys ((k1, v1) :: rest) by
            simp only [dictKeys, List.map_cons]
            exact List.mem_cons_of_mem _ hmem)]
          simp [dictKeys]
        · rw [if_neg hmem, if_neg (show k ∉ dictKeys ((k1, v1) :: rest) by
            simp only [dictKeys, List.map_cons]
            intro hc
            rcases List.mem_cons.mp hc with h2 | h2
            · exact hnk h2
            · exact hmem h2)]
          simp [dictKeys]

theorem dictKeys_dictSet_nodup {α : Type} (m : List (String × α)) (k : String)
    (v : α) (h : (dictKeys m).Nodup) : (dictKeys (dictSet m k v)).Nodup := by
  rw [dictKeys_dictSet]
  split
  · exact h
  · next hk => simpa [List.nodup_append] using ⟨h, hk⟩

theorem dictLookup_eq_none_iff {α : Type} (m : List (String × α))
    (k : String) : dictLookup m k = none ↔ k ∉ dictKeys m := by
  induction m with
  | nil => simp [dictLookup, dictKeys]
  | cons p rest ih =>
      obtain ⟨k1, v1⟩ := p
      by_cases h : k1 = k
      · subst h
        simp [dictLookup, dictKeys]
      · have hnk : ¬ k = k1 := fun h2 => h h2.symm
        simp [dictLookup, dictKeys, h, hnk, ih]

/-! ## Dedup characterization (claim C1) -/

/-- The running best of the dedup loop restricted to one base identifier:
a later entry replaces the best only on a strictly greater version. -/
def keepLatest (acc : FeedEntry) : List FeedEntry → FeedEntry
  | [] => acc
  | e :: rest => keepLatest (if acc.version < e.version then e else acc) rest

def keepLatestOpt : Option FeedEntry → List FeedEntry → Option FeedEntry
  | none, [] => none
  | none, e :: rest => some (keepLatest e rest)
  | some ex, l => some (keepLatest ex l)

theorem keepLatest_cons (acc e : FeedEntry) (rest : List FeedEntry) :
    keepLatest acc (e :: rest) =
      keepLatest (if acc.version < e.version then e else acc) rest := rfl

theorem keepLatestOpt_nil (o : Option FeedEntry) : keepLatestOpt o [] = o := by
  cases o <;> rfl

theorem keepLatestOpt_some (ex : FeedEntry) (l : List FeedEntry) :
    keepLatestOpt (some ex) l = some (keepLatest ex l) := rfl

theorem dedupe_fold_lookup (es : List FeedEntry)
    (m : List (String × FeedEntry)) (b : String) :
    dictLookup (es.foldl dedupeStep m) b =
      keepLatestOpt (dictLookup m b) (es.filter (fun e => e.base_id == b)) := by
  induction es generalizing m with
  | nil => simp [keepLatestOpt_nil]
  | cons e rest ih =>
      by_cases hb : e.base_id = b
      · have hfil : (e :: rest).filter (fun x => x.base_id == b) =
            e :: rest.filter (fun x => x.base_id == b) := by
          simp [List.filter_cons, hb]
        rw [List.foldl_cons, ih, hfil]
        cases hex : dictLookup m b with
        | none =>
            have hstep : dedupeStep m e = dictSet m b e := by
              simp [dedupeStep, hb, hex]
            rw [hstep, dictLookup_dictSet_self, keepLatestOpt_some]
            rfl
        | some ex =>
            by_cases hv : ex.version < e.version
            · have hstep : dedupeStep m e = dictSet m b e := by
                simp [dedupeStep, hb, hex, hv]
              rw [hstep, dictLookup_dictSet_self, keepLatestOpt_some,
                keepLatestOpt_some]
              have hkl : keepLatest ex (e :: List.filter (fun x => x.base_id == b) rest)
                  = keepLatest e (List.filter (fun x => x.base_id == b) rest) := by
                rw [keepLatest_cons, if_pos hv]
              rw [hkl]
            · have hstep : dedupeStep m e = m := by
                simp [dedupeStep, hb, hex, hv]
              rw [hstep, hex, keepLatestOpt_some, keepLatestOpt_some]
              have hkl : keepLatest ex (e :: List.filter (fun x => x.base_id == b) rest)
                  = keepLatest ex (List.filter (fun x => x.base_id == b) rest) := by
                rw [keepLatest_cons, if_neg hv]
              rw [hkl]
      · have hfil : (e :: rest).filter (fun x => x.base_id == b) =
            rest.filter (fun x => x.base_id == b) := by
          simp [List.filter_cons, hb]
        rw [List.foldl_cons, ih, hfil]
        have hlook : dictLookup (dedupeStep m e) b = dictLookup m b := by
          cases hex : dictLookup m e.base_id with
          | none =>
              have hstep : dedupeStep m e = dictSet m e.base_id e := by
                simp [dedupeStep, hex]
              rw [hstep]
              exact dictLookup_dictSet_ne m e.base_id b e (fun h => hb h.symm)
          | some ex =>
              by_cases hv : ex.version < e.version
              · have hstep : dedupeStep m e = dictSet m e.base_id e := by
                  simp [dedupeStep, hex, hv]
                rw [hstep]
                exact dictLookup_dictSet_ne m e.base_id b e (fun h => hb h.symm)
              · have hstep : dedupeStep m e = m := by
                  simp [dedupeStep, hex, hv]
                rw [hstep]
        rw [hlook]

theorem keepLatest_version_le (l : List FeedEntry) (acc : FeedEntry) :
    acc.version ≤ (keepLatest acc l).version ∧
      ∀ x ∈ l, x.version ≤ (keepLatest acc l).version := by
  induction l generalizing acc with
  | nil => simp [keepLatest]
  | cons e rest ih =>
      by_cases hv : acc.version < e.version
      · have h := ih e
        have heq : keepLatest acc (e :: rest) = keepLatest e rest := by
          rw [keepLatest_cons, if_pos hv]
        rw [heq]
        refine ⟨le_trans (le_of_lt hv) h.1, ?_⟩
        intro x hx
        rcases List.mem_cons.mp hx with h1 | h1
        · subst h1; exact h.1
        · exact h.2 x h1
      · have h := ih acc
        have heq : keepLatest acc (e :: rest) = keepLatest acc rest := by
          rw [keepLatest_cons, if_neg hv]
        rw [heq]
        refine ⟨h.1, ?_⟩
        intro x hx
        rcases List.mem_cons.mp hx with h1 | h1
        · subst h1
          have h2 := h.1
          omega
        · exact h.2 x h1

theorem keepLatest_first_max (l : List FeedEntry) (acc : FeedEntry) :
    (keepLatest acc l = acc ∧ ∀ x ∈ l, x.version ≤ acc.version) ∨
    (∃ l1 l2, l = l1 ++ keepLatest acc l :: l2 ∧
      acc.version < (keepLatest acc l).version ∧
      (∀ x ∈ l1, x.version < (keepLatest acc l).version) ∧
      (∀ x ∈ l2, x.version ≤ (keepLatest acc l).version)) := by
  induction l generalizing acc with
  | nil => left; simp [keepLatest]
  | cons e rest ih =>
      by_cases hv : acc.version < e.version
      · right
        have heq : keepLatest acc (e :: rest) = keepLatest e rest := by
          rw [keepLatest_cons, if_pos hv]
        rcases ih e with ⟨h1, h2⟩ | ⟨l1, l2, hsplit, hlt, hl1, hl2⟩
        · refine ⟨[], rest, ?_, ?_, by simp, ?_⟩
          · simp [heq, h1]
          · rw [heq, h1]; exact hv
          · intro x hx; rw [heq, h1]; exact h2 x hx
        · refine ⟨e :: l1, l2, ?_, ?_, ?_, ?_⟩
          · rw [heq, List.cons_append]
            exact congrArg (fun t => e :: t) hsplit
          · rw [heq]; exact lt_trans hv hlt
          · intro x hx
            rcases List.mem_cons.mp hx with h1 | h1
            · subst h1; rw [heq]; exact hlt
            · rw [heq]; exact hl1 x h1
          · intro x hx; rw [heq]; exact hl2 x hx
      · have heq : keepLatest acc (e :: rest) = keepLatest acc rest := by
          rw [keepLatest_cons, if_neg hv]
        rcases ih acc with ⟨h1, h2⟩ | ⟨l1, l2, hsplit, hlt, hl1, hl2⟩
        · left
          refine ⟨by rw [heq, h1], ?_⟩
          intro x hx
          rcases List.mem_cons.mp hx with h3 | h3
          · subst h3; omega
          · exact h2 x h3
        · right
          refine ⟨e :: l1, l2, ?_, ?_, ?_, ?_⟩
          · rw [heq, List.cons_append]
            exact congrArg (fun t => e :: t) hsplit
          · rw [heq]; exact hlt
          · intro x hx
            rcases List.mem_cons.mp hx with h3 | h3
            · subst h3; rw [heq]; omega
            · rw [heq]; exact hl1 x h3
          · intro x hx; rw [heq]; exact hl2 x hx

theorem dedupe_fold_keys_nodup (es : List FeedEntry)
    (m : List (String × FeedEntry)) (h : (dictKeys m).Nodup) :
    (dictKeys (es.foldl dedupeStep m)).Nodup := by
  induction es generalizing m with
  | nil => exact h
  | cons e rest ih =>
      rw [List.foldl_cons]
      apply ih
      cases hex : dictLookup m e.base_id with
      | none =>
          have hstep : dedupeStep m e = dictSet m e.base_id e := by
            simp [dedupeStep, hex]
          rw [hstep]
          exact dictKeys_dictSet_nodup m e.base_id e h
      | some ex =>
          by_cases hv : ex.version < e.version
          · have hstep : dedupeStep m e = dictSet m e.base_id e := by
              simp [dedupeStep, hex, hv]
            rw [hstep]
            exact dictKeys_dictSet_nodup m e.base_id e h
          · have hstep : dedupeStep m e = m := by
              simp [dedupeStep, hex, hv]
            rw [hstep]
            exact h

theorem keepLatestOpt_none_eq_none_iff (l : List FeedEntry) :
    keepLatestOpt none l = none ↔ l = [] := by
  cases l <;> simp [keepLatestOpt]

/-- C1 (amended): the `records` dict produced by the dedup loop of
`normalize` has exactly one row per base identifier occurring in the feed,
the row for a base identifier is an input entry with the maximum version
seen for it — and when several entries share that maximum version the
FIRST-seen entry's fields win, because line 51 of normalize.py replaces the
stored entry only on a strictly greater version. -/
theorem dedupe_one_row_per_base_max_version_first_seen (es : List FeedEntry) :
    (dictKeys (dedupeEntries es)).Nodup ∧
    (∀ b : String,
      b ∈ dictKeys (dedupeEntries es) ↔ ∃ e ∈ es, e.base_id = b) ∧
    (∀ b : String, ∀ e : FeedEntry,
      dictLookup (dedupeEntries es) b = some e →
      e ∈ es ∧ e.base_id = b ∧
      (∀ x ∈ es, x.base_id = b → x.version ≤ e.version) ∧
      ∃ l1 l2, es.filter (fun x => x.base_id == b) = l1 ++ e :: l2 ∧
        ∀ x ∈ l1, x.version < e.version) := by
  refine ⟨dedupe_fold_keys_nodup es [] (by simp [dictKeys]), ?_, ?_⟩
  · intro b
    have hfold : dictLookup (dedupeEntries es) b =
        keepLatestOpt none (es.filter (fun x => x.base_id == b)) := by
      simpa [dedupeEntries, dictLookup] using dedupe_fold_lookup es [] b
    constructor
    · intro hmem
      by_contra hno
      push_neg at hno
      have hfil : es.filter (fun x => x.base_id == b) = [] := by
        rw [List.filter_eq_nil_iff]
        intro a ha
        simp only [beq_iff_eq]
        exact fun hc => (hno a ha) hc
      rw [hfil, keepLatestOpt_nil] at hfold
      exact ((dictLookup_eq_none_iff _ b).mp hfold) hmem
    · rintro ⟨e, he, hbe⟩
      by_contra hnot
      have hlnone := (dictLookup_eq_none_iff (dedupeEntries es) b).mpr hnot
      rw [hlnone] at hfold
      have hfil := (keepLatestOpt_none_eq_none_iff _).mp hfold.symm
      have : e ∈ es.filter (fun x => x.base_id == b) := by
        rw [List.mem_filter]
        exact ⟨he, by simp [hbe]⟩
      rw [hfil] at this
      exact List.not_mem_nil e this
  · intro b e hlook
    have hfold : dictLookup (dedupeEntries es) b =
        keepLatestOpt none (es.filter (fun x => x.base_id == b)) := by
      simpa [dedupeEntries, dictLookup] using dedupe_fold_lookup es [] b
    rw [hlook] at hfold
    cases hfil : es.filter (fun x => x.base_id == b) with
    | nil =>
        rw [hfil, keepLatestOpt_nil] at hfold
        exact absurd hfold (by simp)
    | cons f0 ftail =>
        rw [hfil] at hfold
        have he : e = keepLatest f0 ftail := by
          simpa [keepLatestOpt] using hfold
        have hmemfil : ∀ x, x ∈ es.filter (fun y => y.base_id == b) →
            x ∈ es ∧ x.base_id = b := by
          intro x hx
          rw [List.mem_filter] at hx
          exact ⟨hx.1, by simpa using hx.2⟩
        have hle := keepLatest_version_le ftail f0
        have hmax : ∀ x ∈ es, x.base_id = b → x.version ≤ e.version := by
          intro x hx hbx
          have hxf : x ∈ es.filter (fun y => y.base_id == b) := by
            rw [List.mem_filter]
            exact ⟨hx, by simp [hbx]⟩
          rw [hfil] at hxf
          rw [he]
          rcases List.mem_cons.mp hxf with h1 | h1
          · subst h1; exact hle.1
          · exact hle.2 x h1
        rcases keepLatest_first_max ftail f0 with ⟨h1, h2⟩ | ⟨l1, l2, hsp, hlt, hl1, _⟩
        · have hef : e = f0 := by rw [he, h1]
          have hf0 := hmemfil f0 (by rw [hfil]; exact List.mem_cons_self f0 ftail)
          subst hef
          refine ⟨hf0.1, hf0.2, hmax, [], ftail, by simp, by simp⟩
        · rw [← he] at hsp hlt hl1
          have hmem2 : e ∈ ftail := by
            rw [hsp]
            exact List.mem_append_right l1 (List.mem_cons_self e l2)
          have hee := hmemfil e (by
            rw [hfil]
            exact List.mem_cons_of_mem f0 hmem2)
          refine ⟨hee.1, hee.2, hmax, f0 :: l1, l2, ?_, ?_⟩
          · rw [hsp]
            simp
          · intro x hx
            rcases List.mem_cons.mp hx with h1 | h1
            · subst h1; exact hlt
            · exact hl1 x h1

/-- A pair of entries sharing base identifier and version, differing in
their fields: the concrete tie used to settle C1's tie-break direction. -/
def tieEntryA : FeedEntry :=
  { arxiv_id := "1234.5678v1", base_id := "1234.5678", version := 1
    title := "First Seen", abstract := "first abstract", authors := []
    categories := ["cs.AI"], primary_category := "cs.AI"
    published_at := "2024-01-01T00:00:00Z", updated_at := ""
    links := [] }

def tieEntryB : FeedEntry :=
  { tieEntryA with title := "Last Seen", abstract := "last abstract" }

/-- C1 counterexample: two entries share the base identifier and the
maximum version; the dedup loop keeps the FIRST-seen entry's fields, not
the last-seen ones the claim (and the spec's tie-break sentence) state. -/
theorem dedupe_tie_keeps_first_seen :
    dictLookup (dedupeEntries [tieEntryA, tieEntryB]) "1234.5678"
      = some tieEntryA ∧ tieEntryA ≠ tieEntryB := by
  constructor
  · rfl
  · decide

/-! ## Claims C9, C4, C5 — link defaults, validation, malformed entries -/

/-- C9 (amended): when the upstream entry lacks an abs or pdf link, the
Normalizer fills it with a URL constructed from the FULL identifier
`arxiv_id` (version suffix included), not from the base identifier; an
upstream link, when present, is kept verbatim. -/
theorem rowOf_link_defaults (s : String) (e : FeedEntry) :
    (dictLookup e.links "abs" = none →
      (rowOf s e).link_abs = "https://arxiv.org/abs/" ++ e.arxiv_id) ∧
    (dictLookup e.links "pdf" = none →
      (rowOf s e).link_pdf = "https://arxiv.org/pdf/" ++ e.arxiv_id ++ ".pdf") ∧
    (∀ u, dictLookup e.links "abs" = some u → (rowOf s e).link_abs = u) ∧
    (∀ u, dictLookup e.links "pdf" = some u → (rowOf s e).link_pdf = u) := by
  refine ⟨?_, ?_, ?_, ?_⟩
  · intro h; simp [rowOf, h]
  · intro h; simp [rowOf, h]
  · intro u h; simp [rowOf, h]
  · intro u h; simp [rowOf, h]

/-- A versioned entry with no upstream links, for settling C9. -/
def versionedEntry : FeedEntry :=
  { arxiv_id := "1234.5678v2", base_id := "1234.5678", version := 2
    title := "Versioned", abstract := "text", authors := []
    categories := ["cs.AI"], primary_category := "cs.AI"
    published_at := "2024-01-01T00:00:00Z", updated_at := ""
    links := [] }

/-- C9 counterexample: the entry lacks both links and its identifier
carries a version suffix; the defaulted URLs embed the full identifier
`1234.5678v2`, not the base identifier `1234.5678` the claim names. -/
theorem default_links_not_from_base_id :
    dictLookup versionedEntry.links "abs" = none ∧
    (rowOf "snap" versionedEntry).link_abs = "https://arxiv.org/abs/1234.5678v2" ∧
    (rowOf "snap" versionedEntry).link_abs ≠ "https://arxiv.org/abs/1234.5678" ∧
    (rowOf "snap" versionedEntry).link_pdf = "https://arxiv.org/pdf/1234.5678v2.pdf" ∧
    (rowOf "snap" versionedEntry).link_pdf ≠ "https://arxiv.org/pdf/1234.5678.pdf" := by
  refine ⟨rfl, rfl, ?_, rfl, ?_⟩ <;> decide

/-- Modelled from pandas (an external collaborator of normalize.py): the
behaviour of `pd.to_datetime(s, errors="coerce").notna()` on the date
strings exercised here — a string opening with an ISO `YYYY-MM-DD` date
parses; the empty string and words like `not-a-date` yield `NaT`. -/
def pdTimestampOk (s : String) : Bool :=
  match s.data with
  | y1 :: y2 :: y3 :: y4 :: '-' :: m1 :: m2 :: '-' :: d1 :: d2 :: _ =>
      y1.isDigit && y2.isDigit && y3.isDigit && y4.isDigit &&
        m1.isDigit && m2.isDigit && d1.isDigit && d2.isDigit
  | _ => false

/-- C4 (amended): `normalize` writes nothing when schema validation fails
(the upload at line 97 runs only after `schema.validate` at line 93
returns), and every written table passed the `published_at` datetime
check.  Only that check can fail: the `nullable=False` checks on
`base_id`/`abstract` cannot fire because every field is `str(...)`-coerced
and empty strings are not null. -/
theorem normalize_no_write_on_validation_failure (tsOk : String → Bool)
    (snapshot : String) (raws : List RawEntry) (out : Option String) :
    (∀ es, parseAll raws = .ok es →
      schemaValidate tsOk
          ((dedupeEntries es).map (fun kv => rowOf snapshot kv.2)) = false →
      normalizeUploads tsOk snapshot raws out = []) ∧
    (∀ blob rows, normalizeUploads tsOk snapshot raws out = [(blob, rows)] →
      ∀ r ∈ rows, tsOk r.published_at = true) := by
  constructor
  · intro es hes hval
    unfold normalizeUploads normalizeRun
    rw [hes]
    simp only [hval]
    rfl
  · intro blob rows hup r hr
    unfold normalizeUploads normalizeRun at hup
    cases hes : parseAll raws with
    | error msg => rw [hes] at hup; exact absurd hup (by simp)
    | ok es =>
        rw [hes] at hup
        by_cases hval : schemaValidate tsOk
            ((dedupeEntries es).map (fun kv => rowOf snapshot kv.2)) = true
        · simp only [hval, if_pos] at hup
          have hrows : rows =
              (dedupeEntries es).map (fun kv => rowOf snapshot kv.2) := by
            simpa using congrArg (fun l => (l.map Prod.snd).headD []) hup.symm
          rw [hrows] at hr
          unfold schemaValidate at hval
          rw [List.all_eq_true] at hval
          exact hval r hr
        · rw [Bool.not_eq_true] at hval
          simp only [hval] at hup
          exact absurd hup (by simp)

/-- A well-formed raw entry whose summary is empty: parses fine, and its
canonical row has an empty (non-null) abstract. -/
def emptyAbstractRaw : RawEntry :=
  { idText := some "http://arxiv.org/abs/1234.5678v1"
    titleText := some "Title", summaryText := some ""
    publishedText := some "2024-01-01T00:00:00Z"
    updatedText := some "2024-01-01T00:00:00Z"
    categoryTerms := [some "cs.AI"], authorNames := [some "Ada"]
    links := [] }

/-- C4 counterexample: a snapshot whose only row has an empty abstract is
written out — `normalize` does not fail, because the pandera schema checks
nullability, not emptiness, and a Python `str` is never null. -/
theorem normalize_writes_despite_empty_abstract :
    (normalizeUploads pdTimestampOk "snap" [emptyAbstractRaw] none).map
        (fun w => (w.1, w.2.map (fun r => r.abstract)))
      = [("normalized/snap/records.parquet", [""])] := by decide

theorem parse_entry_error_msg (r : RawEntry) (msg : String)
    (h : parse_entry r = .error msg) : msg = "Entry missing id field" := by
  unfold parse_entry at h
  split at h
  · exact (Except.error.inj h).symm
  · split at h
    · exact (Except.error.inj h).symm
    · exact absurd h (by simp)

theorem parseAll_error_of_missing_id (pre post : List RawEntry)
    (bad : RawEntry) (hbad : bad.idText = none) :
    parseAll (pre ++ bad :: post) = .error "Entry missing id field" := by
  induction pre with
  | nil =>
      have h : parse_entry bad = .error "Entry missing id field" := by
        unfold parse_entry
        rw [hbad]
      simp only [List.nil_append]
      unfold parseAll
      rw [h]
  | cons r rest ih =>
      simp only [List.cons_append]
      unfold parseAll
      cases hr : parse_entry r with
      | error msg => rw [parse_entry_error_msg r msg hr]
      | ok e => rw [ih]

/-- C5 (amended): a malformed feed entry (missing id field) anywhere in
the snapshot makes the whole `normalize` run fail with the parse error —
`_iter_entries` has no exception handler, so the entry is not skipped and
nothing is written. -/
theorem normalize_fails_on_malformed_entry (tsOk : String → Bool)
    (snapshot : String) (pre post : List RawEntry) (bad : RawEntry)
    (out : Option String) (hbad : bad.idText = none) :
    normalizeRun tsOk snapshot (pre ++ bad :: post) out
        = .error "Entry missing id field" ∧
    normalizeUploads tsOk snapshot (pre ++ bad :: post) out = [] := by
  have h := parseAll_error_of_missing_id pre post bad hbad
  constructor
  · unfold normalizeRun
    rw [h]
  · unfold normalizeUploads normalizeRun
    rw [h]

/-- A raw entry with no id element at all. -/
def missingIdRaw : RawEntry :=
  { idText := none, titleText := some "Broken", summaryText := some "x"
    publishedText := some "2024-01-02T00:00:00Z"
    updatedText := some "2024-01-02T00:00:00Z"
    categoryTerms := [some "cs.AI"], authorNames := [], links := [] }

/-- A second well-formed raw entry surrounding the malformed one. -/
def wellFormedRaw : RawEntry :=
  { idText := some "http://arxiv.org/abs/2345.6789v1"
    titleText := some "Fine", summaryText := some "good abstract"
    publishedText := some "2024-01-03T00:00:00Z"
    updatedText := some "2024-01-03T00:00:00Z"
    categoryTerms := [some "cs.CV"], authorNames := [some "Bob"]
    links := [] }

/-- C5 counterexample: a snapshot holding one malformed entry between two
well-formed ones.  The claim says the run skips it and produces output
from the remaining entries; the code fails the run and writes nothing. -/
theorem normalize_does_not_skip_malformed_entry :
    normalizeRun pdTimestampOk "snap" [emptyAbstractRaw, missingIdRaw, wellFormedRaw]
        none = .error "Entry missing id field" ∧
    normalizeUploads pdTimestampOk "snap"
        [emptyAbstractRaw, missingIdRaw, wellFormedRaw] none = [] := by
  constructor <;> rfl

/-- Closed instance of C5's amended theorem: a single malformed entry
fails the run. -/
theorem normalize_fails_on_malformed_entry_holds :
    normalizeRun pdTimestampOk "w" ([] ++ missingIdRaw :: []) none
        = .error "Entry missing id field" ∧
    normalizeUploads pdTimestampOk "w" ([] ++ missingIdRaw :: []) none = [] :=
  normalize_fails_on_malformed_entry pdTimestampOk "w" [] [] missingIdRaw none rfl

/-! ## `pipelines/indexer.py` -/

/-- One upserted (id, vector, metadata) triple (indexer.py lines 48–65):
id is the row's base identifier, the metadata a denormalized copy of the
row. -/
structure IndexItem where
  id : String
  vector : List Rat
  metadata : CanonicalRow
  deriving DecidableEq, Repr

/-- `_chunks(sequence, size)` for positive `size`: `chunked (size - 1)`
yields slices of `1 + sizePred` elements (the code always calls it with
`BATCH_SIZE = 256`). -/
def chunkedGo {α : Type} (sizePred : Nat) : Nat → List α → List (List α)
  | 0, _ => []
  | _, [] => []
  | fuel + 1, x :: xs =>
      (x :: xs.take sizePred) :: chunkedGo sizePred fuel (xs.drop sizePred)

def chunked {α : Type} (sizePred : Nat) (l : List α) : List (List α) :=
  chunkedGo sizePred l.length l

/-- The probe-mismatch message of indexer.py line 73. -/
def probeMsg (missing : Nat) : String :=
  "Probe mismatch detected: missing " ++ toString missing ++ " ids"

/-- `len(set(probe_ids) - set(datapoints))` (indexer.py line 72): the
cardinality of the Python set difference. -/
def pySetDiffCard (probe found : List String) : Nat :=
  (probe.toFinset \ found.toFinset).card

/-- The per-batch loop of `index_snapshot` (indexer.py lines 42–73).
`sample` stands for the `random.sample` draw of this run and `found` for
the ids `get_datapoints` returns for a probe; both are oracles fixed for
the run.  The first component collects the batches actually upserted; a
probe whose returned id count differs from the probed count raises, so
later batches are never reached. -/
def indexBatches (sample : List String → List String)
    (found : List String → List String) :
    List (List IndexItem) → List (List IndexItem) × Option String
  | [] => ([], none)
  | batch :: rest =>
      let probe := sample (batch.map (fun it => it.id))
      if probe = [] then
        let r := indexBatches sample found rest
        (batch :: r.1, r.2)
      else
        let fnd := found probe
        if fnd.length ≠ probe.length then
          ([batch], some (probeMsg (pySetDiffCard probe fnd)))
        else
          let r := indexBatches sample found rest
          (batch :: r.1, r.2)

/-- `index_snapshot` (indexer.py lines 28–73) over an already-loaded
canonical table: no-op on an empty table, otherwise batch the rows by 256,
embed each batch's abstracts, build the items and run the upsert/probe
loop. -/
def index_snapshot (embed : String → List Rat)
    (sample found : List String → List String)
    (rows : List CanonicalRow) : List (List IndexItem) × Option String :=
  if rows.isEmpty then ([], none)
  else
    indexBatches sample found
      ((chunked 255 rows).map (fun b =>
        b.map (fun r =>
          ({ id := r.base_id, vector := embed r.abstract, metadata := r } :
            IndexItem))))

theorem pySetDiffCard_eq_sub (probe found : List String)
    (hp : probe.Nodup) (hf : found.Nodup) (hsub : found ⊆ probe) :
    pySetDiffCard probe found = probe.length - found.length := by
  unfold pySetDiffCard
  have hsubF : found.toFinset ⊆ probe.toFinset := by
    intro x hx
    rw [List.mem_toFinset] at hx ⊢
    exact hsub hx
  rw [Finset.card_sdiff hsubF, List.toFinset_card_of_nodup hp,
    List.toFinset_card_of_nodup hf]

/-- C3: if, for some upserted batch, the post-upsert probe finds fewer ids
than it probed (earlier batches' probes having passed), `index_snapshot`'s
loop stops with the fatal probe-mismatch error naming the number of
missing ids, and no batch after the failing one is processed. -/
theorem index_probe_mismatch_aborts
    (sample found : List String → List String)
    (pre post : List (List IndexItem)) (batch : List IndexItem)
    (hpre : ∀ b ∈ pre, sample (b.map (fun it => it.id)) = [] ∨
      (found (sample (b.map (fun it => it.id)))).length
        = (sample (b.map (fun it => it.id))).length)
    (hfewer : (found (sample (batch.map (fun it => it.id)))).length
        < (sample (batch.map (fun it => it.id))).length)
    (hnodup : (sample (batch.map (fun it => it.id))).Nodup)
    (hfnodup : (found (sample (batch.map (fun it => it.id)))).Nodup)
    (hsub : found (sample (batch.map (fun it => it.id)))
        ⊆ sample (batch.map (fun it => it.id))) :
    indexBatches sample found (pre ++ batch :: post)
      = (pre ++ [batch],
         some (probeMsg ((sample (batch.map (fun it => it.id))).length
            - (found (sample (batch.map (fun it => it.id)))).length))) := by
  induction pre with
  | nil =>
      have hne : sample (batch.map (fun it => it.id)) ≠ [] := by
        intro h
        rw [h] at hfewer
        simp at hfewer
      have hneq : (found (sample (batch.map (fun it => it.id)))).length
          ≠ (sample (batch.map (fun it => it.id))).length :=
        Nat.ne_of_lt hfewer
      simp only [List.nil_append]
      unfold indexBatches
      rw [if_neg hne, if_pos hneq,
        pySetDiffCard_eq_sub _ _ hnodup hfnodup hsub]
  | cons b pre ih =>
      have hb := hpre b (List.mem_cons_self b pre)
      have hrest := ih (fun x hx => hpre x (List.mem_cons_of_mem b hx))
      simp only [List.cons_append]
      unfold indexBatches
      rcases hb with hb | hb
      · rw [if_pos hb, hrest]
      · by_cases hbe : sample (b.map (fun it => it.id)) = []
        · rw [if_pos hbe, hrest]
        · rw [if_neg hbe]
          rw [if_neg (by simpa using hb), hrest]

/-- Ten items with distinct ids, used to exercise the probe at the sizes
the spec quotes (probe 10, find 9). -/
def tenItems : List IndexItem :=
  (List.range 10).map (fun i =>
    { id := "paper-" ++ toString i, vector := [1]
      metadata :=
        { arxiv_id := "x", base_id := "paper-" ++ toString i, version := 1
          title := "t", abstract := "a", authors := []
          primary_category := "cs.AI", categories := ["cs.AI"]
          published_at := "2024-01-01", updated_at := ""
          link_abs := "", link_pdf := "", ingest_snapshot := "snap" } })

/-- Closed instance of C3: probing all 10 ids of the only upserted batch
and finding 9 of them stops the run with the message naming 1 missing id,
leaving the following batch unprocessed. -/
theorem index_probe_mismatch_aborts_holds :
    indexBatches (fun l => l) (fun l => l.drop 1)
        ([] ++ tenItems :: [tenItems])
      = ([] ++ [tenItems], some "Probe mismatch detected: missing 1 ids" ) := by
  have h := index_probe_mismatch_aborts (fun l => l) (fun l => l.drop 1)
    [] [tenItems] tenItems (by intro b hb; cases hb)
    (by decide) (by decide) (by decide) (by decide)
  simpa using h

/-! ## `service/embed_vertex.py` — the content-hash cache -/

/-- `VertexEmbeddingClient.embed_text` (embed_vertex.py lines 44–51) as a
state transformer: `hashText` models `_hash_text` (SHA-256 hexdigest),
`model` the underlying `get_embeddings` call on one text, `cache` the
instance's `_cache` dict.  Returns the vector, the updated cache, and how
many underlying model calls this invocation made. -/
def embedText {V : Type} (hashText : String → String) (model : String → V)
    (cache : List (String × V)) (x : String) :
    V × List (String × V) × Nat :=
  match dictLookup cache (hashText x) with
  | some v => (v, cache, 0)
  | none =>
      let v := model x
      (v, dictSet cache (hashText x) v, 1)

/-- C7: calling `embed_text` twice with the same text on one client whose
cache does not yet hold that text returns the same vector both times, the
two calls together invoke the underlying model exactly once, and the
second call leaves the cache untouched (it is served from the cache). -/
theorem embedText_twice_one_model_call {V : Type}
    (hashText : String → String) (model : String → V)
    (cache : List (String × V)) (x : String)
    (h : dictLookup cache (hashText x) = none) :
    (embedText hashText model (embedText hashText model cache x).2.1 x).1
      = (embedText hashText model cache x).1 ∧
    (embedText hashText model cache x).2.2 +
      (embedText hashText model (embedText hashText model cache x).2.1 x).2.2
      = 1 ∧
    (embedText hashText model (embedText hashText model cache x).2.1 x).2.1
      = (embedText hashText model cache x).2.1 := by
  have h1 : embedText hashText model cache x =
      (model x, dictSet cache (hashText x) (model x), 1) := by
    unfold embedText
    rw [h]
  have h2 : dictLookup (dictSet cache (hashText x) (model x)) (hashText x)
      = some (model x) := dictLookup_dictSet_self cache (hashText x) (model x)
  have h3 : embedText hashText model
      (dictSet cache (hashText x) (model x)) x
      = (model x, dictSet cache (hashText x) (model x), 0) := by
    unfold embedText
    rw [h2]
  rw [h1]
  simp only [h3]
  exact ⟨trivial, trivial, trivial⟩

/-- Closed instance of C7 at a concrete client state. -/
theorem embedText_twice_one_model_call_holds :
    (embedText (fun s => s) (fun _ => (42 : Nat))
        (embedText (fun s => s) (fun _ => (42 : Nat)) [] "abstract text").2.1
        "abstract text").1
      = (embedText (fun s => s) (fun _ => (42 : Nat)) [] "abstract text").1 ∧
    (embedText (fun s => s) (fun _ => (42 : Nat)) [] "abstract text").2.2 +
      (embedText (fun s => s) (fun _ => (42 : Nat))
        (embedText (fun s => s) (fun _ => (42 : Nat)) [] "abstract text").2.1
        "abstract text").2.2 = 1 ∧
    (embedText (fun s => s) (fun _ => (42 : Nat))
        (embedText (fun s => s) (fun _ => (42 : Nat)) [] "abstract text").2.1
        "abstract text").2.1
      = (embedText (fun s => s) (fun _ => (42 : Nat)) [] "abstract text").2.1 :=
  embedText_twice_one_model_call (fun s => s) (fun _ => (42 : Nat)) []
    "abstract text" rfl

/-! ## `service/search_api.py` — health endpoint (claim C10) -/

structure HealthResponse where
  ok : Bool
  deriving DecidableEq, Repr

/-- The handler bound to both `@app.get("/healthz")` and
`@app.get("/healhz")` (search_api.py lines 36–44): returns `{"ok": true}`
and, having no body besides the return, leaves any application state
unchanged. -/
def healthz {S : Type} (state : S) : HealthResponse × S :=
  ({ ok := true }, state)

/-- The GET route table the two stacked decorators register: both path
spellings map to the same handler. -/
def healthGetRoutes (S : Type) : List (String × (S → HealthResponse × S)) :=
  [("/healthz", healthz), ("/healhz", healthz)]

/-- C10: the health endpoint is served at the documented `/healthz` and at
the misspelled alias `/healhz`; both resolve to the same handler, which
returns `{"ok": true}` and does not change the state (no side effects). -/
theorem health_endpoint_both_spellings (S : Type) (s : S) :
    dictLookup (healthGetRoutes S) "/healthz" = some healthz ∧
    dictLookup (healthGetRoutes S) "/healhz" = some healthz ∧
    healthz s = ({ ok := true }, s) :=
  ⟨rfl, rfl, rfl⟩

/-! ## `service/vector_search.py` + `/search` — distances (claim C8) -/

/-- One entry of a `FindNeighbors` response (vector_search.py lines
114–125): the datapoint and the raw distance the index reports. -/
structure RawNeighbor where
  datapoint_id : String
  embedding_metadata : List (String × String)
  distance : Rat
  deriving DecidableEq, Repr

structure Neighbor where
  id : String
  distance : Rat
  metadata : List (String × String)
  deriving DecidableEq, Repr

/-- `VectorSearchClient.search`'s response assembly (vector_search.py
lines 114–127): each neighbor dict copies `neighbor.distance` through
unmodified. -/
def clientSearchNeighbors (raw : List RawNeighbor) : List Neighbor :=
  raw.map (fun n =>
    { id := n.datapoint_id, distance := n.distance
      metadata := n.embedding_metadata })

structure SearchResponse where
  query_url : String
  k : Nat
  neighbors : List Neighbor
  deriving DecidableEq, Repr

/-- The `/search` response (search_api.py line 185):
`{"query_url": ..., "k": ..., **neighbors}`. -/
def apiSearchResponse (url : String) (k : Nat) (raw : List RawNeighbor) :
    SearchResponse :=
  { query_url := url, k := k, neighbors := clientSearchNeighbors raw }

/-- The similarity mapping claim C8 describes, written from the spec's
words: `1 - distance` clamped into [0, 1].  Present for comparison only —
no code in the repository computes it. -/
def specClampedSimilarity (d : Rat) : Rat := max 0 (min 1 (1 - d))

/-- C8 (amended): every neighbor's raw distance is returned to the caller
unchanged — no `1 - distance` mapping and no clamping into [0,1] is
applied anywhere between the index response and the `/search` reply. -/
theorem search_returns_raw_distances (url : String) (k : Nat)
    (raw : List RawNeighbor) :
    (apiSearchResponse url k raw).neighbors.map (fun n => n.distance)
      = raw.map (fun n => n.distance) := by
  unfold apiSearchResponse clientSearchNeighbors
  simp

/-- C8 counterexample: a neighbor at raw distance 3/2 is returned with
distance 3/2 — outside [0,1] and different from the clamped `1 - d` value
(0) the claim requires. -/
theorem search_distance_not_clamped :
    (apiSearchResponse "https://arxiv.org/abs/1234.5678" 5
        [{ datapoint_id := "n1", embedding_metadata := [],
           distance := (3 : Rat) / 2 }]).neighbors.map (fun n => n.distance)
      = [(3 : Rat) / 2] ∧
    ¬ ((3 : Rat) / 2 ≤ 1) ∧
    specClampedSimilarity ((3 : Rat) / 2) = 0 ∧
    (3 : Rat) / 2 ≠ specClampedSimilarity ((3 : Rat) / 2) := by
  refine ⟨rfl, by norm_num, ?_, ?_⟩
  · unfold specClampedSimilarity
    norm_num
  · unfold specClampedSimilarity
    norm_num

/-! ## `service/search_api.py` — A/B routing (claim C6)

The routing hash is `int(hashlib.md5(ip.encode()).hexdigest(), 16)`; MD5 is
implemented here concretely (RFC 1321) over byte lists, with 32-bit words as
Nat reduced mod 2^32, so the hash of a concrete IP evaluates inside Lean. -/

def mask32 (n : Nat) : Nat := n % 4294967296

def rotl32 (x s : Nat) : Nat :=
  mask32 (x <<< s) ||| (x >>> (32 - s))

/-- The 64 MD5 round constants, `floor(abs(sin(i + 1)) * 2^32)`. -/
def md5K : List Nat :=
  [0xd76aa478, 0xe8c7b756, 0x242070db, 0xc1bdceee,
   0xf57c0faf, 0x4787c62a, 0xa8304613, 0xfd469501,
   0x698098d8, 0x8b44f7af, 0xffff5bb1, 0x895cd7be,
   0x6b901122, 0xfd987193, 0xa679438e, 0x49b40821,
   0xf61e2562, 0xc040b340, 0x265e5a51, 0xe9b6c7aa,
   0xd62f105d, 0x02441453, 0xd8a1e681, 0xe7d3fbc8,
   0x21e1cde6, 0xc33707d6, 0xf4d50d87, 0x455a14ed,
   0xa9e3e905, 0xfcefa3f8, 0x676f02d9, 0x8d2a4c8a,
   0xfffa3942, 0x8771f681, 0x6d9d6122, 0xfde5380c,
   0xa4beea44, 0x4bdecfa9, 0xf6bb4b60, 0xbebfbc70,
   0x289b7ec6, 0xeaa127fa, 0xd4ef3085, 0x04881d05,
   0xd9d4d039, 0xe6db99e5, 0x1fa27cf8, 0xc4ac5665,
   0xf4292244, 0x432aff97, 0xab9423a7, 0xfc93a039,
   0x655b59c3, 0x8f0ccc92, 0xffeff47d, 0x85845dd1,
   0x6fa87e4f, 0xfe2ce6e0, 0xa3014314, 0x4e0811a1,
   0xf7537e82, 0xbd3af235, 0x2ad7d2bb, 0xeb86d391]

/-- The per-round left-rotation amounts. -/
def md5S : List Nat :=
  [7, 12, 17, 22, 7, 12, 17, 22, 7, 12, 17, 22, 7, 12, 17, 22,
   5, 9, 14, 20, 5, 9, 14, 20, 5, 9, 14, 20, 5, 9, 14, 20,
   4, 11, 16, 23, 4, 11, 16, 23, 4, 11, 16, 23, 4, 11, 16, 23,
   6, 10, 15, 21, 6, 10, 15, 21, 6, 10, 15, 21, 6, 10, 15, 21]

/-- The `k` lowest-order bytes of `n`, little-endian. -/
def toLEBytes : Nat → Nat → List Nat
  | 0, _ => []
  | k + 1, n => (n % 256) :: toLEBytes k (n / 256)

/-- MD5 padding: a 0x80 byte, zeros to 56 mod 64, then the bit length as
eight little-endian bytes. -/
def md5Pad (msg : List Nat) : List Nat :=
  let z := (120 - ((msg.length + 1) % 64)) % 64
  msg ++ [128] ++ List.replicate z 0 ++ toLEBytes 8 (msg.length * 8)

/-- A 64-byte block as sixteen little-endian 32-bit words. -/
def md5BlockWords (block : List Nat) : List Nat :=
  (chunked 3 block).map (fun bs => bs.foldr (fun b acc => acc * 256 + b) 0)

def md5Round (M : List Nat) (st : Nat × Nat × Nat × Nat) (i : Nat) :
    Nat × Nat × Nat × Nat :=
  let a := st.1
  let b := st.2.1
  let c := st.2.2.1
  let d := st.2.2.2
  let fg : Nat × Nat :=
    if i < 16 then ((b &&& c) ||| ((0xFFFFFFFF ^^^ b) &&& d), i)
    else if i < 32 then
      ((d &&& b) ||| ((0xFFFFFFFF ^^^ d) &&& c), (5 * i + 1) % 16)
    else if i < 48 then (b ^^^ c ^^^ d, (3 * i + 5) % 16)
    else (c ^^^ (b ||| (0xFFFFFFFF ^^^ d)), (7 * i) % 16)
  let tmp := mask32 (a + fg.1 + md5K.getD i 0 + M.getD fg.2 0)
  let newB := mask32 (b + rotl32 tmp (md5S.getD i 0))
  (d, newB, b, c)

def md5ProcessBlock (st : Nat × Nat × Nat × Nat) (block : List Nat) :
    Nat × Nat × Nat × Nat :=
  let M := md5BlockWords block
  let r := (List.range 64).foldl (md5Round M) st
  (mask32 (st.1 + r.1), mask32 (st.2.1 + r.2.1),
   mask32 (st.2.2.1 + r.2.2.1), mask32 (st.2.2.2 + r.2.2.2))

/-- The sixteen digest bytes (a, b, c, d each little-endian). -/
def md5Bytes (msg : List Nat) : List Nat :=
  let st := (chunked 63 (md5Pad msg)).foldl md5ProcessBlock
    (0x67452301, 0xefcdab89, 0x98badcfe, 0x10325476)
  toLEBytes 4 st.1 ++ toLEBytes 4 st.2.1 ++ toLEBytes 4 st.2.2.1 ++
    toLEBytes 4 st.2.2.2

/-- `int(md5(...).hexdigest(), 16)`: the digest read as a big-endian
number (hex parsing of the hexdigest is exactly base-256 on the bytes). -/
def md5HexNat (msg : List Nat) : Nat :=
  (md5Bytes msg).foldl (fun acc b => acc * 256 + b) 0

/-- `ip.encode()` for the ASCII strings IPs are. -/
def strBytes (s : String) : List Nat := s.data.map (fun c => c.toNat)

/-- `ip_hash` of search_api.py line 129. -/
def ipHash (ip : String) : Nat := md5HexNat (strBytes ip)

inductive Variant
  | A
  | B
  deriving DecidableEq, Repr

/-- The two module-level client slots read by the router: whether
`settings.b_deployed_index_id` is set (truthy) and whether
`_vector_client_B` was initialized at startup. -/
structure AbState where
  bConfigured : Bool
  bInitialized : Bool
  deriving DecidableEq, Repr

/-- The routing decision of search_api.py lines 127–142: variant B exactly
when `settings.b_deployed_index_id and _vector_client_B and
(ip_hash % 100 < 10)`, else variant A. -/
def routeVariant (st : AbState) (ip : String) : Variant :=
  if st.bConfigured && st.bInitialized && decide (ipHash ip % 100 < 10) then
    Variant.B
  else Variant.A

/-- C6: routing is a pure function of the client IP string — equal IPs
always route alike — and, in any state the startup sequence can leave
(`_init_clients` either initializes client B or refuses to start when
`b_deployed_index_id` is configured, so the slot is initialized exactly
when configured), the request routes to variant B iff the secondary
variant is configured and the MD5 hash of the IP reduced mod 100 is below
the threshold 10; otherwise it routes to variant A. -/
theorem routing_deterministic_and_thresholded (st : AbState) (ip1 ip2 : String)
    (hstartup : st.bInitialized = st.bConfigured) (hip : ip1 = ip2) :
    routeVariant st ip1 = routeVariant st ip2 ∧
    (routeVariant st ip1 = Variant.B ↔
      st.bConfigured = true ∧ ipHash ip1 % 100 < 10) ∧
    (routeVariant st ip1 = Variant.A ↔
      ¬ (st.bConfigured = true ∧ ipHash ip1 % 100 < 10)) := by
  subst hip
  refine ⟨rfl, ?_, ?_⟩
  · unfold routeVariant
    rw [hstartup]
    by_cases hc : st.bConfigured = true
    · by_cases hh : ipHash ip1 % 100 < 10
      · simp [hc, hh]
      · simp [hc, hh]
    · rw [Bool.not_eq_true] at hc
      simp [hc]
  · unfold routeVariant
    rw [hstartup]
    by_cases hc : st.bConfigured = true
    · by_cases hh : ipHash ip1 % 100 < 10
      · simp [hc, hh]
      · simp [hc, hh]
    · rw [Bool.not_eq_true] at hc
      simp [hc]

/-- Closed instance of C6 at a fully configured state and a concrete IP
(md5("127.0.0.1") mod 100 = 2, so this IP lands in the 10% B bucket). -/
theorem routing_deterministic_and_thresholded_holds :
    routeVariant ⟨true, true⟩ "127.0.0.1"
        = routeVariant ⟨true, true⟩ "127.0.0.1" ∧
    (routeVariant ⟨true, true⟩ "127.0.0.1" = Variant.B ↔
      true = true ∧ ipHash "127.0.0.1" % 100 < 10) ∧
    (routeVariant ⟨true, true⟩ "127.0.0.1" = Variant.A ↔
      ¬ (true = true ∧ ipHash "127.0.0.1" % 100 < 10)) :=
  routing_deterministic_and_thresholded ⟨true, true⟩ "127.0.0.1" "127.0.0.1"
    rfl rfl

set_option maxRecDepth 100000 in
/-- The hash threshold evaluated on two concrete IPs: `127.0.0.1` falls in
the B bucket, `1.2.3.4` does not (digests match `hashlib.md5`). -/
theorem ipHash_concrete_values :
    ipHash "127.0.0.1" % 100 = 2 ∧ ipHash "1.2.3.4" % 100 = 29 ∧
    routeVariant ⟨true, true⟩ "127.0.0.1" = Variant.B ∧
    routeVariant ⟨true, true⟩ "1.2.3.4" = Variant.A ∧
    routeVariant ⟨false, false⟩ "127.0.0.1" = Variant.A := by decide

/-! ## `service/arxiv_client.py` — `parse_arxiv_url` (claim C2)

`ARXIV_URL_PATTERN = https?://arxiv\.org/(?:abs|pdf)/` +
`(?P<identifier>[\w.\-]+)(?:v\d+)?(?:\.pdf)?`, compiled with `IGNORECASE`
and used with `.match` (prefix match, end not anchored).  The two trailing
groups are optional and the greedy `[\w.\-]+` absorbs any `vN` or `.pdf`
tail (both consist of `[\w.]` characters), so a match exists iff the
literal prefix up to the second `/` matches case-insensitively and at
least one identifier character follows; the identifier group is then the
maximal identifier-character run. -/

/-- Case-insensitive literal matcher: consumes `p` (given lowercase) off
the front of the input, returning the rest. -/
def matchLit (p : List Char) (cs : List Char) : Option (List Char) :=
  match p, cs with
  | [], rest => some rest
  | _ :: _, [] => none
  | q :: ps, c :: tl => if c.toLower = q then matchLit ps tl else none

/-- The `(?:abs|pdf)/` alternation. -/
def matchSeg (cs : List Char) : Option (List Char) :=
  match matchLit "abs/".data cs with
  | some r => some r
  | none => matchLit "pdf/".data cs

/-- The identifier group after the matched prefix: the greedy
`[\w.\-]+` — `none` when not even one identifier character follows. -/
def idTail (r : List Char) : Option String :=
  let ids := r.takeWhile isIdChar
  if ids = [] then none else some (String.mk ids)

/-- The whole pattern: scheme with optional `s`, host, segment, then the
greedy nonempty identifier group. -/
def matchIdentifier (cs : List Char) : Option String :=
  match matchLit "http".data cs with
  | none => none
  | some r1 =>
      let r1b := match r1 with
        | c :: tl => if c.toLower = 's' then tl else r1
        | [] => r1
      match matchLit "://arxiv.org/".data r1b with
      | none => none
      | some r2 =>
          match matchSeg r2 with
          | none => none
          | some r3 => idTail r3

/-- `identifier.lower().endswith(".pdf")` and the 4-character strip
(`identifier[: -len(".pdf")]`). -/
def stripPdfSuffix (s : String) : String :=
  if ".pdf".data.isSuffixOf (s.data.map Char.toLower) then
    String.mk (s.data.take (s.data.length - 4))
  else s

/-- `re.search(r"v\d+", url)`: the leftmost lowercase `v` followed by a
digit, returning the match (`v` plus the maximal digit run). -/
def headIsDigit : List Char → Bool
  | d :: _ => d.isDigit
  | [] => false

def findVDigits : List Char → Option (List Char)
  | [] => none
  | c :: rest =>
      if decide (c = 'v') && headIsDigit rest then
        some ('v' :: rest.takeWhile Char.isDigit)
      else findVDigits rest

/-- Python's `needle in hay` substring test. -/
def substrB (needle : List Char) : List Char → Bool
  | [] => decide (needle = [])
  | c :: tl => needle.isPrefixOf (c :: tl) || substrB needle tl

/-- `parse_arxiv_url` (arxiv_client.py lines 142–154): match the pattern
against the stripped URL, strip a `.pdf` suffix off the identifier,
search the ORIGINAL url for a `v\d+` marker and append it when it is not
already a substring of the identifier; `none` on no match. -/
def parse_arxiv_url (url : String) : Option String :=
  match matchIdentifier (stripChars url.data) with
  | none => none
  | some ident0 =>
      let ident := stripPdfSuffix ident0
      match findVDigits url.data with
      | none => some ident
      | some vm =>
          if substrB vm ident.data then some ident
          else some (ident ++ String.mk vm)

/-- The recognized "abstract view"/"PDF view" URL shapes, written from
the spec's vocabulary: after stripping surrounding whitespace the URL
starts, case-insensitively, with one of the four literal prefixes, and an
identifier character follows. -/
def recognizedArxivUrl (url : String) : Bool :=
  let cs := stripChars url.data
  ["http://arxiv.org/abs/", "https://arxiv.org/abs/",
   "http://arxiv.org/pdf/", "https://arxiv.org/pdf/"].any (fun p =>
    ((cs.take p.length).map Char.toLower = p.data : Bool) &&
      (match cs.drop p.length with
       | c :: _ => isIdChar c
       | [] => false))

/-- A clean "abstract view"/"PDF view" URL: scheme, host, `abs` or `pdf`
segment, base identifier, optional `vN` suffix (`vd = []` meaning none),
optional `.pdf` extension. -/
def mkArxivUrl (secure pdfSeg : Bool) (b vd : List Char) (ext : Bool) :
    String :=
  String.mk ((if secure then "https".data else "http".data) ++
    ("://arxiv.org/".data ++
      ((if pdfSeg then "pdf".data else "abs".data) ++
        ('/' :: (b ++ ((if vd = [] then [] else 'v' :: vd) ++
          (if ext then ".pdf".data else [])))))))

/-- No `v`-followed-by-digit pair occurs in the list: the base identifier
carries no version marker of its own. -/
def noVDigit : List Char → Bool
  | [] => true
  | [_] => true
  | c :: d :: tl => !(c = 'v' && d.isDigit) && noVDigit (d :: tl)

/-!  Proof development for `parse_arxiv_url` (claim C2): a specification of
the literal matcher, the equivalence of the staged matcher with the four
concrete prefixes it can consume, and the evaluation of `parse_arxiv_url`
on every well-formed "abstract view"/"PDF view" URL. -/

theorem matchLit_append (p q cs : List Char) :
    matchLit (p ++ q) cs = (matchLit p cs).bind (matchLit q) := by
  induction p generalizing cs with
  | nil => simp [matchLit]
  | cons a ps ih =>
      cases cs with
      | nil => simp [matchLit]
      | cons c tl =>
          by_cases h : c.toLower = a
          · simp [matchLit, h, ih]
          · simp [matchLit, h]

theorem matchLit_spec (p : List Char) : ∀ cs : List Char,
    matchLit p cs =
      if (cs.take p.length).map Char.toLower = p then some (cs.drop p.length)
      else none := by
  induction p with
  | nil => intro cs; simp [matchLit]
  | cons q ps ih =>
      intro cs
      cases cs with
      | nil => simp [matchLit]
      | cons c tl =>
          simp only [List.length_cons, List.take_succ_cons, List.map_cons,
            List.drop_succ_cons]
          have hred : (c.toLower :: (tl.take ps.length).map Char.toLower
              = q :: ps) ↔
              (c.toLower = q ∧ (tl.take ps.length).map Char.toLower = ps) := by
            simp
          by_cases h : c.toLower = q
          · rw [show matchLit (q :: ps) (c :: tl)
                = if c.toLower = q then matchLit ps tl else none from rfl,
              if_pos h, ih tl]
            by_cases h2 : (tl.take ps.length).map Char.toLower = ps
            · rw [if_pos h2, if_pos (hred.mpr ⟨h, h2⟩)]
            · rw [if_neg h2, if_neg (fun hc => h2 (hred.mp hc).2)]
          · rw [show matchLit (q :: ps) (c :: tl)
                = if c.toLower = q then matchLit ps tl else none from rfl,
              if_neg h, if_neg (fun hc => h (hred.mp hc).1)]

/-- The four concrete prefixes the pattern can match, tried in order. -/
def fourChains (cs : List Char) : Option String :=
  match matchLit "https://arxiv.org/abs/".data cs with
  | some r => idTail r
  | none =>
      match matchLit "https://arxiv.org/pdf/".data cs with
      | some r => idTail r
      | none =>
          match matchLit "http://arxiv.org/abs/".data cs with
          | some r => idTail r
          | none =>
              match matchLit "http://arxiv.org/pdf/".data cs with
              | some r => idTail r
              | none => none

theorem matchIdentifier_eq_fourChains (cs : List Char) :
    matchIdentifier cs = fourChains cs := by
  have hs1 : ("https://arxiv.org/abs/".data : List Char)
      = ("http".data ++ "s".data) ++ "://arxiv.org/".data ++ "abs/".data := by
    decide
  have hs2 : ("https://arxiv.org/pdf/".data : List Char)
      = ("http".data ++ "s".data) ++ "://arxiv.org/".data ++ "pdf/".data := by
    decide
  have hs3 : ("http://arxiv.org/abs/".data : List Char)
      = "http".data ++ "://arxiv.org/".data ++ "abs/".data := by decide
  have hs4 : ("http://arxiv.org/pdf/".data : List Char)
      = "http".data ++ "://arxiv.org/".data ++ "pdf/".data := by decide
  unfold fourChains matchIdentifier
  rw [hs1, hs2, hs3, hs4]
  rw [matchLit_append, matchLit_append, matchLit_append, matchLit_append,
    matchLit_append, matchLit_append, matchLit_append, matchLit_append,
    matchLit_append, matchLit_append]
  cases h4 : matchLit "http".data cs with
  | none => simp
  | some r1 =>
      simp only [Option.some_bind]
      cases r1 with
      | nil =>
          have ha1 : matchLit "s".data ([] : List Char) = none := rfl
          have ha2 : matchLit "://arxiv.org/".data ([] : List Char)
              = none := rfl
          simp [ha1, ha2]
      | cons c tl =>
          by_cases hc : c.toLower = 's'
          · have hls : matchLit "s".data (c :: tl) = some tl := by
              simp [matchLit, hc]
            have hl2 : matchLit "://arxiv.org/".data (c :: tl) = none := by
              have : ¬ c.toLower = ':' := by rw [hc]; decide
              simp [matchLit, this]
            simp only [hls, hl2, Option.some_bind, Option.none_bind, hc,
              if_true]
            cases h13 : matchLit "://arxiv.org/".data tl with
            | none => simp
            | some r2 =>
                simp only [Option.some_bind]
                unfold matchSeg
                cases ha : matchLit "abs/".data r2 with
                | some r => simp
                | none =>
                    simp only [Option.none_bind]
                    cases hp : matchLit "pdf/".data r2 with
                    | some r => simp
                    | none => simp
          · have hls : matchLit "s".data (c :: tl) = none := by
              simp [matchLit, hc]
            simp only [hls, Option.some_bind, Option.none_bind, hc, if_false]
            cases h13 : matchLit "://arxiv.org/".data (c :: tl) with
            | none => simp
            | some r2 =>
                simp only [Option.some_bind]
                unfold matchSeg
                cases ha : matchLit "abs/".data r2 with
                | some r => simp
                | none =>
                    simp only [Option.none_bind]
                    cases hp : matchLit "pdf/".data r2 with
                    | some r => simp
                    | none => simp


theorem idTail_none_iff (r : List Char) :
    idTail r = none ↔
      (match r with
       | c :: _ => isIdChar c
       | [] => false) = false := by
  unfold idTail
  cases r with
  | nil => simp
  | cons c rest =>
      by_cases h : isIdChar c
      · have ht : (c :: rest).takeWhile isIdChar
            = c :: rest.takeWhile isIdChar := by
          simp [List.takeWhile_cons, h]
        simp [ht, h]
      · have ht : (c :: rest).takeWhile isIdChar = [] := by
          simp [List.takeWhile_cons, h]
        simp [ht, h]

theorem take_map_incompat (cs Q1 Q2 : List Char)
    (h12 : Q1 ≠ Q2.take Q1.length) (hlen : Q1.length ≤ Q2.length)
    (h1 : (cs.take Q1.length).map Char.toLower = Q1)
    (h2 : (cs.take Q2.length).map Char.toLower = Q2) : False := by
  apply h12
  calc Q1 = (cs.take Q1.length).map Char.toLower := h1.symm
    _ = ((cs.take Q2.length).take Q1.length).map Char.toLower := by
        rw [List.take_take, Nat.min_eq_left hlen]
    _ = ((cs.take Q2.length).map Char.toLower).take Q1.length := by
        rw [List.map_take]
    _ = Q2.take Q1.length := by rw [h2]

theorem matchLit_some_cond (p cs r : List Char) (h : matchLit p cs = some r) :
    (cs.take p.length).map Char.toLower = p ∧ r = cs.drop p.length := by
  rw [matchLit_spec] at h
  split at h
  · next hc => exact ⟨hc, (Option.some.inj h).symm⟩
  · exact absurd h (by simp)

theorem matchLit_some_of_cond (p cs : List Char)
    (h : (cs.take p.length).map Char.toLower = p) :
    matchLit p cs = some (cs.drop p.length) := by
  rw [matchLit_spec, if_pos h]

theorem fourChains_none_iff_aux (cs : List Char) :
    fourChains cs = none ↔
      (∀ P ∈ (["https://arxiv.org/abs/", "https://arxiv.org/pdf/",
        "http://arxiv.org/abs/", "http://arxiv.org/pdf/"] : List String),
        (cs.take P.length).map Char.toLower = P.data →
        (match cs.drop P.length with
         | c :: _ => isIdChar c
         | [] => false) = false) := by
  constructor
  · intro h P hP hcond
    fin_cases hP
    · -- https://arxiv.org/abs/
      have e1 := matchLit_some_of_cond "https://arxiv.org/abs/".data cs hcond
      unfold fourChains at h
      rw [e1] at h
      exact (idTail_none_iff _).mp h
    · -- https://arxiv.org/pdf/
      unfold fourChains at h
      cases e1 : matchLit "https://arxiv.org/abs/".data cs with
      | some r1 =>
          exact absurd ((matchLit_some_cond _ cs r1 e1).1)
            (fun hc => take_map_incompat cs _ _ (by decide) (by decide)
              hc hcond)
      | none =>
          rw [e1] at h
          have e2 := matchLit_some_of_cond "https://arxiv.org/pdf/".data cs
            hcond
          rw [e2] at h
          exact (idTail_none_iff _).mp h
    · -- http://arxiv.org/abs/
      unfold fourChains at h
      cases e1 : matchLit "https://arxiv.org/abs/".data cs with
      | some r1 =>
          exact absurd ((matchLit_some_cond _ cs r1 e1).1)
            (fun hc => take_map_incompat cs _ _ (by decide) (by decide)
              hcond hc)
      | none =>
          rw [e1] at h
          cases e2 : matchLit "https://arxiv.org/pdf/".data cs with
          | some r2 =>
              exact absurd ((matchLit_some_cond _ cs r2 e2).1)
                (fun hc => take_map_incompat cs _ _ (by decide) (by decide)
                  hcond hc)
          | none =>
              rw [e2] at h
              have e3 := matchLit_some_of_cond "http://arxiv.org/abs/".data
                cs hcond
              rw [e3] at h
              exact (idTail_none_iff _).mp h
    · -- http://arxiv.org/pdf/
      unfold fourChains at h
      cases e1 : matchLit "https://arxiv.org/abs/".data cs with
      | some r1 =>
          exact absurd ((matchLit_some_cond _ cs r1 e1).1)
            (fun hc => take_map_incompat cs _ _ (by decide) (by decide)
              hcond hc)
      | none =>
          rw [e1] at h
          cases e2 : matchLit "https://arxiv.org/pdf/".data cs with
          | some r2 =>
              exact absurd ((matchLit_some_cond _ cs r2 e2).1)
                (fun hc => take_map_incompat cs _ _ (by decide) (by decide)
                  hcond hc)
          | none =>
              rw [e2] at h
              cases e3 : matchLit "http://arxiv.org/abs/".data cs with
              | some r3 =>
                  exact absurd ((matchLit_some_cond _ cs r3 e3).1)
                    (fun hc => take_map_incompat cs _ _ (by decide)
                      (by decide) hc hcond)
              | none =>
                  rw [e3] at h
                  have e4 := matchLit_some_of_cond
                    "http://arxiv.org/pdf/".data cs hcond
                  rw [e4] at h
                  exact (idTail_none_iff _).mp h
  · intro h
    unfold fourChains
    cases e1 : matchLit "https://arxiv.org/abs/".data cs with
    | some r1 =>
        obtain ⟨hc1, hr1⟩ := matchLit_some_cond _ cs r1 e1
        subst hr1
        exact (idTail_none_iff _).mpr
          (h "https://arxiv.org/abs/" (by simp) hc1)
    | none =>
        cases e2 : matchLit "https://arxiv.org/pdf/".data cs with
        | some r2 =>
            obtain ⟨hc2, hr2⟩ := matchLit_some_cond _ cs r2 e2
            subst hr2
            exact (idTail_none_iff _).mpr
              (h "https://arxiv.org/pdf/" (by simp) hc2)
        | none =>
            cases e3 : matchLit "http://arxiv.org/abs/".data cs with
            | some r3 =>
                obtain ⟨hc3, hr3⟩ := matchLit_some_cond _ cs r3 e3
                subst hr3
                exact (idTail_none_iff _).mpr
                  (h "http://arxiv.org/abs/" (by simp) hc3)
            | none =>
                cases e4 : matchLit "http://arxiv.org/pdf/".data cs with
                | some r4 =>
                    obtain ⟨hc4, hr4⟩ := matchLit_some_cond _ cs r4 e4
                    subst hr4
                    exact (idTail_none_iff _).mpr
                      (h "http://arxiv.org/pdf/" (by simp) hc4)
                | none => rfl

theorem bool_cond_bridge (C : Prop) [Decidable C] (H : Bool) :
    ((decide C && H) = false) ↔ (C → H = false) := by
  by_cases hC : C <;> simp [hC]

theorem matchIdentifier_none_iff (cs : List Char) :
    matchIdentifier cs = none ↔
      (["http://arxiv.org/abs/", "https://arxiv.org/abs/",
        "http://arxiv.org/pdf/", "https://arxiv.org/pdf/"].any (fun p =>
        (decide ((cs.take p.length).map Char.toLower = p.data)) &&
          (match cs.drop p.length with
           | c :: _ => isIdChar c
           | [] => false))) = false := by
  rw [matchIdentifier_eq_fourChains, fourChains_none_iff_aux,
    List.any_eq_false]
  constructor
  · intro h p hp
    rw [Bool.not_eq_true, bool_cond_bridge]
    intro hc
    exact h p (by fin_cases hp <;> simp) hc
  · intro h P hP hcond
    have h2 := h P (by fin_cases hP <;> simp)
    rw [Bool.not_eq_true, bool_cond_bridge] at h2
    exact h2 hcond

theorem parse_none_iff_matcher (url : String) :
    parse_arxiv_url url = none ↔
      matchIdentifier (stripChars url.data) = none := by
  unfold parse_arxiv_url
  cases h : matchIdentifier (stripChars url.data) with
  | none => simp
  | some id0 =>
      simp only []
      cases hv : findVDigits url.data with
      | none => simp
      | some vm =>
          by_cases hs : substrB vm (stripPdfSuffix id0).data <;> simp [hs]

theorem parse_arxiv_url_none_iff (url : String) :
    parse_arxiv_url url = none ↔ recognizedArxivUrl url = false := by
  rw [parse_none_iff_matcher, matchIdentifier_none_iff]
  rfl

theorem isIdChar_not_ws (c : Char) (h : isIdChar c = true) : isWs c = false := by
  by_cases hw : isWs c = true
  · exfalso
    simp only [isWs, Bool.or_eq_true, decide_eq_true_eq] at hw
    rcases hw with ((((h1 | h1) | h1) | h1) | h1) | h1 <;>
      (subst h1; revert h; decide)
  · exact (Bool.not_eq_true _).mp hw

theorem isDigit_isIdChar (c : Char) (h : c.isDigit = true) :
    isIdChar c = true := by
  simp [isIdChar, Char.isAlphanum, h]

theorem dropWhile_eq_self_of_head (p : Char → Bool) (cs : List Char)
    (h : ∀ c tl, cs = c :: tl → p c = false) : cs.dropWhile p = cs := by
  cases cs with
  | nil => rfl
  | cons c tl =>
      rw [List.dropWhile_cons, if_neg]
      rw [h c tl rfl]
      simp

theorem stripChars_eq_self (cs : List Char)
    (h1 : ∀ c tl, cs = c :: tl → isWs c = false)
    (h2 : ∀ c, cs.getLast? = some c → isWs c = false) :
    stripChars cs = cs := by
  unfold stripChars
  rw [dropWhile_eq_self_of_head isWs cs h1]
  rw [dropWhile_eq_self_of_head isWs cs.reverse]
  · rw [List.reverse_reverse]
  · intro c tl hrev
    apply h2
    rw [List.getLast?_eq_head?_reverse, hrev]
    rfl

theorem matchLit_self_append (p rest : List Char)
    (hp : p.map Char.toLower = p) : matchLit p (p ++ rest) = some rest := by
  rw [matchLit_spec, List.take_left, hp, if_pos rfl, List.drop_left]

theorem takeWhile_append_all (p : Char → Bool) (l1 l2 : List Char)
    (h : ∀ x ∈ l1, p x = true) :
    (l1 ++ l2).takeWhile p = l1 ++ l2.takeWhile p := by
  induction l1 with
  | nil => simp
  | cons c tl ih =>
      rw [List.cons_append, List.takeWhile_cons, if_pos (h c (by simp)),
        ih (fun x hx => h x (by simp [hx])), List.cons_append]

def okPair (a b : Char) : Prop := ¬(a = 'v' ∧ b.isDigit = true)

theorem noVDigit_iff_chain (l : List Char) :
    noVDigit l = true ↔ List.Chain' okPair l := by
  induction l with
  | nil => simp [noVDigit]
  | cons c tl ih =>
      cases tl with
      | nil => simp [noVDigit, okPair]
      | cons d tl2 =>
          rw [show noVDigit (c :: d :: tl2)
              = (!(c = 'v' && d.isDigit) && noVDigit (d :: tl2)) from rfl]
          rw [List.chain'_cons]
          constructor
          · intro h
            have h1 := (Bool.and_eq_true _ _).mp h
            refine ⟨?_, ih.mp h1.2⟩
            intro ⟨hc, hd⟩
            rw [Bool.not_eq_true' ] at h1
            have := h1.1
            simp [hc, hd] at this
          · intro ⟨hok, hch⟩
            rw [Bool.and_eq_true]
            refine ⟨?_, ih.mpr hch⟩
            rw [Bool.not_eq_true']
            by_cases hc : c = 'v'
            · by_cases hd : d.isDigit = true
              · exact absurd ⟨hc, hd⟩ hok
              · simp [hc, hd]
            · simp [hc]

theorem findVDigits_cons (c : Char) (tl : List Char) :
    findVDigits (c :: tl) =
      if decide (c = 'v') && headIsDigit tl then
        some ('v' :: tl.takeWhile Char.isDigit)
      else findVDigits tl := rfl

theorem findVDigits_none_of_chain (l : List Char)
    (h : List.Chain' okPair l) : findVDigits l = none := by
  induction l with
  | nil => rfl
  | cons c tl ih =>
      have htl := ih (List.Chain'.tail h)
      have hguard : (decide (c = 'v') && headIsDigit tl) = false := by
        by_cases hc : c = 'v'
        · cases tl with
          | nil => simp [headIsDigit]
          | cons d tl2 =>
              have hok := (List.chain'_cons.mp h).1
              have hd : d.isDigit = false := by
                by_cases hd : d.isDigit = true
                · exact absurd ⟨hc, hd⟩ hok
                · exact (Bool.not_eq_true _).mp hd
              simp [headIsDigit, hd]
        · simp [hc]
      rw [findVDigits_cons, hguard]
      simpa using htl

theorem findVDigits_append_chain (xs ys : List Char)
    (hx : List.Chain' okPair xs)
    (hb : ∀ x, xs.getLast? = some x → ∀ y, ys.head? = some y →
      okPair x y) :
    findVDigits (xs ++ ys) = findVDigits ys := by
  induction xs with
  | nil => rfl
  | cons c tl ih =>
      rw [List.cons_append]
      have hrest : findVDigits (tl ++ ys) = findVDigits ys := by
        apply ih (List.Chain'.tail hx)
        intro x hlast y hy
        apply hb
        · cases tl with
          | nil => simp at hlast
          | cons a tl2 =>
              rw [List.getLast?_cons_cons]
              exact hlast
        · exact hy
      have hguard : (decide (c = 'v') && headIsDigit (tl ++ ys)) = false := by
        by_cases hc : c = 'v'
        · cases tl with
          | nil =>
              cases ys with
              | nil => simp [headIsDigit]
              | cons y ys2 =>
                  have hny := hb c (by rfl) y (by rfl)
                  have hyd : y.isDigit = false := by
                    by_cases hyd : y.isDigit = true
                    · exact absurd ⟨hc, hyd⟩ hny
                    · exact (Bool.not_eq_true _).mp hyd
                  simp [headIsDigit, hyd]
          | cons d tl2 =>
              have hok := (List.chain'_cons.mp hx).1
              have hd : d.isDigit = false := by
                by_cases hd : d.isDigit = true
                · exact absurd ⟨hc, hd⟩ hok
                · exact (Bool.not_eq_true _).mp hd
              simp [headIsDigit, hd]
        · simp [hc]
      rw [findVDigits_cons, hguard]
      simpa using hrest

theorem substrB_of_suffix (n h : List Char) (hs : n <:+ h) :
    substrB n h = true := by
  obtain ⟨t, ht⟩ := hs
  induction t generalizing h with
  | nil =>
      simp only [List.nil_append] at ht
      subst ht
      cases n with
      | nil => rfl
      | cons c tl =>
          unfold substrB
          rw [Bool.or_eq_true]
          exact Or.inl (List.isPrefixOf_iff_prefix.mpr (List.prefix_refl _))
  | cons a t2 ih =>
      rw [List.cons_append] at ht
      subst ht
      unfold substrB
      rw [Bool.or_eq_true]
      exact Or.inr (ih (t2 ++ n) rfl)

theorem toLower_digit (c : Char) (h : c.isDigit = true) : c.toLower = c := by
  unfold Char.toLower
  rw [if_neg]
  simp only [Char.isDigit, Bool.and_eq_true, decide_eq_true_eq] at h
  have h1 : c.toNat ≥ 48 := h.1
  have h2 : c.toNat ≤ 57 := h.2
  intro hc
  omega

theorem matchIdentifier_https_abs (tail : List Char) :
    matchIdentifier ("https://arxiv.org/abs/".data ++ tail) = idTail tail := by
  simp +decide [matchIdentifier, matchSeg, matchLit]

theorem matchIdentifier_https_pdf (tail : List Char) :
    matchIdentifier ("https://arxiv.org/pdf/".data ++ tail) = idTail tail := by
  simp +decide [matchIdentifier, matchSeg, matchLit]

theorem matchIdentifier_http_abs (tail : List Char) :
    matchIdentifier ("http://arxiv.org/abs/".data ++ tail) = idTail tail := by
  simp +decide [matchIdentifier, matchSeg, matchLit]

theorem matchIdentifier_http_pdf (tail : List Char) :
    matchIdentifier ("http://arxiv.org/pdf/".data ++ tail) = idTail tail := by
  simp +decide [matchIdentifier, matchSeg, matchLit]

theorem idTail_all_idChars (tail : List Char) (hne : tail ≠ [])
    (hall : ∀ c ∈ tail, isIdChar c = true) :
    idTail tail = some (String.mk tail) := by
  unfold idTail
  rw [List.takeWhile_eq_self_iff.mpr hall, if_neg hne]

theorem stripPdf_append (xs : List Char) :
    stripPdfSuffix (String.mk (xs ++ ".pdf".data)) = String.mk xs := by
  unfold stripPdfSuffix
  rw [if_pos]
  · congr 1
    show (xs ++ ".pdf".data).take ((xs ++ ".pdf".data).length - 4) = xs
    rw [List.length_append]
    show (xs ++ ".pdf".data).take (xs.length + 4 - 4) = xs
    rw [Nat.add_sub_cancel]
    exact List.take_left xs ".pdf".data
  · rw [List.isSuffixOf_iff_suffix]
    show ".pdf".data <:+ (xs ++ ".pdf".data).map Char.toLower
    rw [List.map_append]
    rw [show ".pdf".data.map Char.toLower = ".pdf".data from by decide]
    exact ⟨xs.map Char.toLower, rfl⟩

theorem stripPdf_noop (xs : List Char)
    (h : ".pdf".data.isSuffixOf (xs.map Char.toLower) = false) :
    stripPdfSuffix (String.mk xs) = String.mk xs := by
  unfold stripPdfSuffix
  rw [show (String.mk xs).data = xs from rfl, h]
  simp

theorem notSuffixPdf_of_digit_last (b vd : List Char) (hvdne : vd ≠ [])
    (hvd : ∀ c ∈ vd, c.isDigit = true) :
    ".pdf".data.isSuffixOf ((b ++ 'v' :: vd).map Char.toLower) = false := by
  by_cases hs : ".pdf".data.isSuffixOf ((b ++ 'v' :: vd).map Char.toLower) = true
  · exfalso
    rw [List.isSuffixOf_iff_suffix] at hs
    obtain ⟨t, ht⟩ := hs
    have hlast : ((b ++ 'v' :: vd).map Char.toLower).getLast? = some 'f' := by
      rw [← ht, List.getLast?_append_of_ne_nil t (by decide)]
      decide
    have hlast2 : ((b ++ 'v' :: vd).map Char.toLower).getLast?
        = ((b ++ 'v' :: vd).getLast?).map Char.toLower := by
      rw [List.getLast?_map]
    have hlast3 : (b ++ 'v' :: vd).getLast? = ('v' :: vd).getLast? :=
      List.getLast?_append_of_ne_nil b (by simp)
    have hlast4 : ('v' :: vd).getLast? = vd.getLast? := by
      cases vd with
      | nil => exact absurd rfl hvdne
      | cons d tl => rw [List.getLast?_cons_cons]
    cases hvl : vd.getLast? with
    | none =>
        rw [List.getLast?_eq_none_iff] at hvl
        exact hvdne hvl
    | some d =>
        have hd : d.isDigit = true :=
          hvd d (List.mem_of_mem_getLast? (by rw [hvl]; rfl))
        rw [hlast2, hlast3, hlast4, hvl] at hlast
        have : d.toLower = 'f' := by simpa using hlast
        rw [toLower_digit d hd] at this
        subst this
        exact absurd hd (by decide)
  · exact (Bool.not_eq_true _).mp hs

theorem parse_eq_of_matcher (url : String) (id0 : String)
    (h : matchIdentifier (stripChars url.data) = some id0) :
    parse_arxiv_url url =
      (match findVDigits url.data with
       | none => some (stripPdfSuffix id0)
       | some vm =>
           if substrB vm (stripPdfSuffix id0).data then
             some (stripPdfSuffix id0)
           else some (stripPdfSuffix id0 ++ String.mk vm)) := by
  unfold parse_arxiv_url
  simp only [h]

theorem parse_wellformed_core
    (P : List Char) (b vd : List Char) (ext : Bool)
    (hb : b ≠ []) (hball : ∀ c ∈ b, isIdChar c = true)
    (hnv : noVDigit b = true)
    (hvd : ∀ c ∈ vd, c.isDigit = true)
    (hpdf : ".pdf".data.isSuffixOf (b.map Char.toLower) = false)
    (hPhead : ∃ t, P = 'h' :: t)
    (hPlast : P.getLast? = some '/')
    (hPchain : List.Chain' okPair P)
    (hMI : ∀ t, matchIdentifier (P ++ t) = idTail t) :
    parse_arxiv_url (String.mk (P ++ (b ++
        ((if vd = [] then [] else 'v' :: vd) ++
          (if ext then ".pdf".data else [])))))
      = some (String.mk (b ++ (if vd = [] then [] else 'v' :: vd))) := by
  set vs : List Char := if vd = [] then [] else 'v' :: vd with hvs
  set extd : List Char := if ext then ".pdf".data else [] with hextd
  have hvsall : ∀ c ∈ vs, isIdChar c = true := by
    intro c hc
    rw [hvs] at hc
    split at hc
    · cases hc
    · rcases List.mem_cons.mp hc with h1 | h1
      · subst h1; decide
      · exact isDigit_isIdChar c (hvd c h1)
  have hpdfmem : ∀ x ∈ (".pdf".data : List Char), isIdChar x = true := by
    decide
  have hextall : ∀ c ∈ extd, isIdChar c = true := by
    intro c hc
    rw [hextd] at hc
    split at hc
    · exact hpdfmem c hc
    · cases hc
  have tailAll : ∀ c ∈ b ++ (vs ++ extd), isIdChar c = true := by
    intro c hc
    rcases List.mem_append.mp hc with h1 | h1
    · exact hball c h1
    · rcases List.mem_append.mp h1 with h2 | h2
      · exact hvsall c h2
      · exact hextall c h2
  have tailNe : b ++ (vs ++ extd) ≠ [] := by
    intro hcontra
    exact hb (List.append_eq_nil.mp hcontra).1
  have hurlData : (String.mk (P ++ (b ++ (vs ++ extd)))).data
      = P ++ (b ++ (vs ++ extd)) := rfl
  have hstrip : stripChars (P ++ (b ++ (vs ++ extd)))
      = P ++ (b ++ (vs ++ extd)) := by
    apply stripChars_eq_self
    · intro c tl hct
      obtain ⟨t, hP⟩ := hPhead
      rw [hP, List.cons_append] at hct
      have : c = 'h' := ((List.cons.inj hct).1).symm
      subst this
      decide
    · intro c hc
      rw [List.getLast?_append_of_ne_nil P tailNe] at hc
      exact isIdChar_not_ws c
        (tailAll c (List.mem_of_mem_getLast? (by rw [hc]; rfl)))
  have hmatch : matchIdentifier (stripChars
      (String.mk (P ++ (b ++ (vs ++ extd)))).data)
      = some (String.mk (b ++ (vs ++ extd))) := by
    rw [hurlData, hstrip, hMI]
    exact idTail_all_idChars _ tailNe tailAll
  rw [parse_eq_of_matcher _ _ hmatch]
  have hstripPdf : stripPdfSuffix (String.mk (b ++ (vs ++ extd)))
      = String.mk (b ++ vs) := by
    cases ext with
    | true =>
        have : extd = ".pdf".data := by simp [hextd]
        rw [this, ← List.append_assoc]
        exact stripPdf_append (b ++ vs)
    | false =>
        have : extd = [] := by simp [hextd]
        rw [this, List.append_nil]
        apply stripPdf_noop
        by_cases hvde : vd = []
        · have : vs = [] := by rw [hvs, if_pos hvde]
          rw [this, List.append_nil]
          exact hpdf
        · have : vs = 'v' :: vd := by rw [hvs, if_neg hvde]
          rw [this]
          exact notSuffixPdf_of_digit_last b vd hvde hvd
  by_cases hvde : vd = []
  · have hvsnil : vs = [] := by rw [hvs, if_pos hvde]
    have hfv : findVDigits
        (String.mk (P ++ (b ++ (vs ++ extd)))).data = none := by
      rw [hurlData]
      apply findVDigits_none_of_chain
      apply List.Chain'.append hPchain
      · apply List.Chain'.append ((noVDigit_iff_chain b).mp hnv)
        · rw [hvsnil, List.nil_append]
          cases ext with
          | true =>
              have : extd = ".pdf".data := by simp [hextd]
              rw [this]
              exact (noVDigit_iff_chain _).mp (by decide)
          | false =>
              have : extd = [] := by simp [hextd]
              rw [this]
              exact List.chain'_nil
        · intro x hx y hy
          rw [hvsnil, List.nil_append] at hy
          cases ext with
          | true =>
              have : extd = ".pdf".data := by simp [hextd]
              rw [this] at hy
              have : y = '.' := by
                simp only [this] at hy
                cases hy
                rfl
              subst this
              intro hcontra
              exact absurd hcontra.2 (by decide)
          | false =>
              have : extd = [] := by simp [hextd]
              rw [this] at hy
              cases hy
      · intro x hx y hy
        rw [Option.mem_def] at hx
        rw [hPlast] at hx
        cases hx
        intro hcontra
        exact absurd hcontra.1 (by decide)
    rw [hfv, hstripPdf]
  · have hvscons : vs = 'v' :: vd := by rw [hvs, if_neg hvde]
    obtain ⟨d0, vd2, hvd0⟩ : ∃ d0 vd2, vd = d0 :: vd2 := by
      cases vd with
      | nil => exact absurd rfl hvde
      | cons a l => exact ⟨a, l, rfl⟩
    have hfv : findVDigits
        (String.mk (P ++ (b ++ (vs ++ extd)))).data
        = some ('v' :: vd) := by
      rw [hurlData, hvscons]
      rw [show P ++ (b ++ ('v' :: vd ++ extd))
          = (P ++ b) ++ ('v' :: (vd ++ extd)) from by
        rw [List.append_assoc]
        rfl]
      rw [findVDigits_append_chain]
      · rw [findVDigits_cons]
        have hguard : (decide ('v' = 'v') && headIsDigit (vd ++ extd))
            = true := by
          rw [hvd0, List.cons_append]
          have : headIsDigit (d0 :: (vd2 ++ extd)) = d0.isDigit := rfl
          rw [this, hvd d0 (by rw [hvd0]; exact List.mem_cons_self d0 vd2)]
          decide
        rw [hguard]
        simp only [if_true]
        congr 1
        congr 1
        rw [takeWhile_append_all Char.isDigit vd extd hvd]
        have : extd.takeWhile Char.isDigit = [] := by
          cases ext with
          | true =>
              have : extd = ".pdf".data := by simp [hextd]
              rw [this]
              decide
          | false =>
              have : extd = [] := by simp [hextd]
              rw [this]
              rfl
        rw [this, List.append_nil]
      · apply List.Chain'.append hPchain ((noVDigit_iff_chain b).mp hnv)
        intro x hx y hy
        rw [Option.mem_def, hPlast] at hx
        cases hx
        intro hcontra
        exact absurd hcontra.1 (by decide)
      · intro x hx y hy
        have : y = 'v' := by
          simp only [List.head?_cons] at hy
          cases hy
          rfl
        subst this
        intro hcontra
        exact absurd hcontra.2 (by decide)
    rw [hfv, hstripPdf]
    have hsub : substrB ('v' :: vd) (String.mk (b ++ vs)).data = true := by
      rw [show (String.mk (b ++ vs)).data = b ++ vs from rfl, hvscons]
      exact substrB_of_suffix _ _ ⟨b, rfl⟩
    simp [hsub]

theorem substrB_sound (n h : List Char) (hs : substrB n h = true) :
    n <:+: h := by
  induction h with
  | nil =>
      unfold substrB at hs
      rw [decide_eq_true_eq] at hs
      subst hs
      exact List.infix_refl []
  | cons c tl ih =>
      unfold substrB at hs
      rw [Bool.or_eq_true] at hs
      rcases hs with h1 | h1
      · exact (List.isPrefixOf_iff_prefix.mp h1).isInfix
      · exact (ih h1).trans (List.infix_cons (List.infix_refl tl))

theorem substrB_false_of_noVDigit (b vd : List Char) (d0 : Char)
    (hnv : noVDigit b = true) (hd0 : d0.isDigit = true) :
    substrB ('v' :: d0 :: vd) b = false := by
  by_cases hs : substrB ('v' :: d0 :: vd) b = true
  · exfalso
    have hinf := substrB_sound _ _ hs
    have hch : List.Chain' okPair ('v' :: d0 :: vd) :=
      List.Chain'.infix ((noVDigit_iff_chain b).mp hnv) hinf
    exact (List.chain'_cons.mp hch).1 ⟨rfl, hd0⟩
  · exact (Bool.not_eq_true _).mp hs

/-- A URL whose path identifier carries no version but whose query string
holds a `vN` marker: the merge case of `parse_url`. -/
def mkArxivUrlQuery (secure pdfSeg : Bool) (b vd : List Char) : String :=
  String.mk ((if secure then "https".data else "http".data) ++
    ("://arxiv.org/".data ++
      ((if pdfSeg then "pdf".data else "abs".data) ++
        ('/' :: (b ++ ('?' :: 'v' :: vd))))))

theorem parse_merge_core
    (P : List Char) (b vd : List Char)
    (hb : b ≠ []) (hball : ∀ c ∈ b, isIdChar c = true)
    (hnv : noVDigit b = true)
    (hvdne : vd ≠ []) (hvd : ∀ c ∈ vd, c.isDigit = true)
    (hpdf : ".pdf".data.isSuffixOf (b.map Char.toLower) = false)
    (hPhead : ∃ t, P = 'h' :: t)
    (hPlast : P.getLast? = some '/')
    (hPchain : List.Chain' okPair P)
    (hMI : ∀ t, matchIdentifier (P ++ t) = idTail t) :
    parse_arxiv_url (String.mk (P ++ (b ++ ('?' :: 'v' :: vd))))
      = some (String.mk (b ++ 'v' :: vd)) := by
  obtain ⟨d0, vd2, hvd0⟩ : ∃ d0 vd2, vd = d0 :: vd2 := by
    cases vd with
    | nil => exact absurd rfl hvdne
    | cons a l => exact ⟨a, l, rfl⟩
  have hd0 : d0.isDigit = true := hvd d0 (by rw [hvd0]; exact List.mem_cons_self d0 vd2)
  have tailNe : b ++ ('?' :: 'v' :: vd) ≠ [] := by
    intro hcontra
    exact hb (List.append_eq_nil.mp hcontra).1
  have hstrip : stripChars (P ++ (b ++ ('?' :: 'v' :: vd)))
      = P ++ (b ++ ('?' :: 'v' :: vd)) := by
    apply stripChars_eq_self
    · intro c tl hct
      obtain ⟨t, hP⟩ := hPhead
      rw [hP, List.cons_append] at hct
      have : c = 'h' := ((List.cons.inj hct).1).symm
      subst this
      decide
    · intro c hc
      rw [List.getLast?_append_of_ne_nil P tailNe,
        List.getLast?_append_of_ne_nil b (by simp)] at hc
      have : ('?' :: 'v' :: vd).getLast? = vd.getLast? := by
        rw [hvd0]
        rw [List.getLast?_cons_cons, List.getLast?_cons_cons]
      rw [this] at hc
      have hcd : c.isDigit = true :=
        hvd c (List.mem_of_mem_getLast? (by rw [hc]; rfl))
      exact isIdChar_not_ws c (isDigit_isIdChar c hcd)
  have hids : (b ++ ('?' :: 'v' :: vd)).takeWhile isIdChar = b := by
    rw [takeWhile_append_all isIdChar b _ hball]
    rw [List.takeWhile_cons, if_neg (by decide)]
    rw [List.append_nil]
  have hmatch : matchIdentifier (stripChars
      (String.mk (P ++ (b ++ ('?' :: 'v' :: vd)))).data)
      = some (String.mk b) := by
    rw [show (String.mk (P ++ (b ++ ('?' :: 'v' :: vd)))).data
        = P ++ (b ++ ('?' :: 'v' :: vd)) from rfl, hstrip, hMI]
    unfold idTail
    rw [hids, if_neg hb]
  rw [parse_eq_of_matcher _ _ hmatch]
  have hstripPdf : stripPdfSuffix (String.mk b) = String.mk b :=
    stripPdf_noop b hpdf
  have hfv : findVDigits
      (String.mk (P ++ (b ++ ('?' :: 'v' :: vd)))).data
      = some ('v' :: vd) := by
    rw [show (String.mk (P ++ (b ++ ('?' :: 'v' :: vd)))).data
        = P ++ (b ++ ('?' :: 'v' :: vd)) from rfl]
    rw [show P ++ (b ++ ('?' :: 'v' :: vd))
        = (P ++ b) ++ ('?' :: 'v' :: vd) from by rw [List.append_assoc]]
    rw [findVDigits_append_chain]
    · rw [findVDigits_cons]
      rw [show (decide ('?' = 'v') && headIsDigit ('v' :: vd)) = false from by
        rw [show headIsDigit ('v' :: vd) = 'v'.isDigit from rfl]
        decide]
      simp only [Bool.false_eq_true, if_false]
      rw [findVDigits_cons]
      have hguard : (decide ('v' = 'v') && headIsDigit vd) = true := by
        rw [hvd0]
        have : headIsDigit (d0 :: vd2) = d0.isDigit := rfl
        rw [this, hd0]
        decide
      rw [hguard]
      simp only [if_true]
      congr 2
      exact List.takeWhile_eq_self_iff.mpr hvd
    · apply List.Chain'.append hPchain ((noVDigit_iff_chain b).mp hnv)
      intro x hx y hy
      rw [Option.mem_def, hPlast] at hx
      cases hx
      intro hcontra
      exact absurd hcontra.1 (by decide)
    · intro x hx y hy
      have : y = '?' := by
        simp only [List.head?_cons] at hy
        cases hy
        rfl
      subst this
      intro hcontra
      exact absurd hcontra.2 (by decide)
  rw [hfv, hstripPdf]
  have hsub : substrB ('v' :: vd) (String.mk b).data = false := by
    rw [show (String.mk b).data = b from rfl, hvd0]
    exact substrB_false_of_noVDigit b vd2 d0 hnv hd0
  simp only [hsub, Bool.false_eq_true, if_false]
  rfl

/-- C2: (a) `parse_arxiv_url` returns `none` exactly on the strings that
are not in a recognized "abstract view"/"PDF view" form (the empty string
among them) and, being a total function, never raises; (b) for every
well-formed URL built from a scheme, the arxiv.org host, an `abs` or `pdf`
segment, a base identifier without its own version marker, an optional
`vN` version suffix and an optional `.pdf` extension, it returns the base
identifier with the version suffix preserved exactly once — the result is
the marker-free base followed by at most one `vN` marker; (c) when the
path identifier carries no version marker but the query string does, the
marker is merged onto the identifier exactly once. -/
theorem parse_arxiv_url_spec :
    (∀ url : String,
      parse_arxiv_url url = none ↔ recognizedArxivUrl url = false) ∧
    (∀ (secure pdfSeg ext : Bool) (b vd : List Char),
      b ≠ [] → (∀ c ∈ b, isIdChar c = true) → noVDigit b = true →
      (∀ c ∈ vd, c.isDigit = true) →
      ".pdf".data.isSuffixOf (b.map Char.toLower) = false →
      parse_arxiv_url (mkArxivUrl secure pdfSeg b vd ext)
        = some (String.mk (b ++ (if vd = [] then [] else 'v' :: vd)))) ∧
    (∀ (secure pdfSeg : Bool) (b vd : List Char),
      b ≠ [] → (∀ c ∈ b, isIdChar c = true) → noVDigit b = true →
      vd ≠ [] → (∀ c ∈ vd, c.isDigit = true) →
      ".pdf".data.isSuffixOf (b.map Char.toLower) = false →
      parse_arxiv_url (mkArxivUrlQuery secure pdfSeg b vd)
        = some (String.mk (b ++ 'v' :: vd))) := by
  refine ⟨parse_arxiv_url_none_iff, ?_, ?_⟩
  · intro secure pdfSeg ext b vd hb hball hnv hvd hpdf
    cases secure <;> cases pdfSeg
    · have hurl : mkArxivUrl false false b vd ext
          = String.mk ("http://arxiv.org/abs/".data ++ (b ++
            ((if vd = [] then [] else 'v' :: vd) ++
              (if ext then ".pdf".data else [])))) := rfl
      rw [hurl]
      exact parse_wellformed_core _ b vd ext hb hball hnv hvd hpdf
        ⟨_, rfl⟩ (by decide) ((noVDigit_iff_chain _).mp (by decide))
        matchIdentifier_http_abs
    · have hurl : mkArxivUrl false true b vd ext
          = String.mk ("http://arxiv.org/pdf/".data ++ (b ++
            ((if vd = [] then [] else 'v' :: vd) ++
              (if ext then ".pdf".data else [])))) := rfl
      rw [hurl]
      exact parse_wellformed_core _ b vd ext hb hball hnv hvd hpdf
        ⟨_, rfl⟩ (by decide) ((noVDigit_iff_chain _).mp (by decide))
        matchIdentifier_http_pdf
    · have hurl : mkArxivUrl true false b vd ext
          = String.mk ("https://arxiv.org/abs/".data ++ (b ++
            ((if vd = [] then [] else 'v' :: vd) ++
              (if ext then ".pdf".data else [])))) := rfl
      rw [hurl]
      exact parse_wellformed_core _ b vd ext hb hball hnv hvd hpdf
        ⟨_, rfl⟩ (by decide) ((noVDigit_iff_chain _).mp (by decide))
        matchIdentifier_https_abs
    · have hurl : mkArxivUrl true true b vd ext
          = String.mk ("https://arxiv.org/pdf/".data ++ (b ++
            ((if vd = [] then [] else 'v' :: vd) ++
              (if ext then ".pdf".data else [])))) := rfl
      rw [hurl]
      exact parse_wellformed_core _ b vd ext hb hball hnv hvd hpdf
        ⟨_, rfl⟩ (by decide) ((noVDigit_iff_chain _).mp (by decide))
        matchIdentifier_https_pdf
  · intro secure pdfSeg b vd hb hball hnv hvdne hvd hpdf
    cases secure <;> cases pdfSeg
    · have hurl : mkArxivUrlQuery false false b vd
          = String.mk ("http://arxiv.org/abs/".data ++
            (b ++ ('?' :: 'v' :: vd))) := rfl
      rw [hurl]
      exact parse_merge_core _ b vd hb hball hnv hvdne hvd hpdf
        ⟨_, rfl⟩ (by decide) ((noVDigit_iff_chain _).mp (by decide))
        matchIdentifier_http_abs
    · have hurl : mkArxivUrlQuery false true b vd
          = String.mk ("http://arxiv.org/pdf/".data ++
            (b ++ ('?' :: 'v' :: vd))) := rfl
      rw [hurl]
      exact parse_merge_core _ b vd hb hball hnv hvdne hvd hpdf
        ⟨_, rfl⟩ (by decide) ((noVDigit_iff_chain _).mp (by decide))
        matchIdentifier_http_pdf
    · have hurl : mkArxivUrlQuery true false b vd
          = String.mk ("https://arxiv.org/abs/".data ++
            (b ++ ('?' :: 'v' :: vd))) := rfl
      rw [hurl]
      exact parse_merge_core _ b vd hb hball hnv hvdne hvd hpdf
        ⟨_, rfl⟩ (by decide) ((noVDigit_iff_chain _).mp (by decide))
        matchIdentifier_https_abs
    · have hurl : mkArxivUrlQuery true true b vd
          = String.mk ("https://arxiv.org/pdf/".data ++
            (b ++ ('?' :: 'v' :: vd))) := rfl
      rw [hurl]
      exact parse_merge_core _ b vd hb hball hnv hvdne hvd hpdf
        ⟨_, rfl⟩ (by decide) ((noVDigit_iff_chain _).mp (by decide))
        matchIdentifier_https_pdf

set_option maxRecDepth 10000 in
theorem parse_arxiv_url_examples :
    parse_arxiv_url "https://arxiv.org/abs/1234.5678" = some "1234.5678" ∧
    parse_arxiv_url "https://arxiv.org/pdf/1234.5678.pdf" = some "1234.5678" ∧
    parse_arxiv_url "https://arxiv.org/abs/1234.5678v2" = some "1234.5678v2" ∧
    parse_arxiv_url "https://arxiv.org/pdf/1234.5678v3.pdf"
      = some "1234.5678v3" ∧
    parse_arxiv_url "https://example.com/abs/1234.5678" = none ∧
    parse_arxiv_url "https://arxiv.org/format/1234.5678" = none ∧
    parse_arxiv_url "" = none ∧
    recognizedArxivUrl "" = false := by
  refine ⟨?_, ?_, ?_, ?_, ?_, ?_, rfl, rfl⟩ <;> rfl

end SciPaperHub
